import Mathlib

/-!
Butane to Ignition translation: `base/v0_2_exp` and `config/flatcar/v1_2_exp`.

A shallow embedding of `base/v0_2_exp/translate.go` (the overrides
`translateFile`, `translateFileContents`, `translateDirectory`, `translateLink`,
`translateFilesystem`, and `Config.addMountUnits` with `mountUnitFromFS`) and of
`config/flatcar/v1_2_exp/translate.go` (`Config.ToIgn3_5Unvalidated`).

Go pointers (`*string`, `*bool`, `*int`) are `Option`s, slices are `List`s, a
method that mutates its receiver returns the new value, and a Go panic (nil
dereference, index out of range) is the result `none`.
-/

/-! ## Package `path` (github.com/coreos/vcontext/path) -/

namespace path

/-- One element of a path: a field name or a position in a sequence. -/
inductive Segment where
  | field (name : String)
  | index (i : Nat)
deriving DecidableEq, Repr

/-- The type `path.ContextPath`: the segments, and the tag of the tree they address. -/
structure ContextPath where
  Path : List Segment
  Tag : String
deriving DecidableEq, Repr

/-- The constructor `path.New(tag, segs...)`. -/
def New (tag : String) (segs : List Segment) : ContextPath :=
  ⟨segs, tag⟩

/-- The method `c.Append(e...)`: a new path with the segments added at the end. -/
def ContextPath.Append (c : ContextPath) (e : List Segment) : ContextPath :=
  ⟨c.Path ++ e, c.Tag⟩

/-- The method `c.Prepend(e...)`: a new path with the segments added in front. -/
def ContextPath.Prepend (c : ContextPath) (e : List Segment) : ContextPath :=
  ⟨e ++ c.Path, c.Tag⟩

end path

/-! ## Package `translate` -/

namespace translate

/-- Modelled from the spec: the entries of a `TranslationSet` (package `translate`,
not among the sources). A `translation` states that the destination path `To` is
explained by the source path `From`; a `commonSource` is the common-source
attribution of the whole subtree `value` created under `toPath` to the one source
path `common`. -/
inductive Entry (V : Type) where
  | translation (From To : path.ContextPath)
  | commonSource (common toPath : path.ContextPath) (value : V)
deriving DecidableEq, Repr

/-- Modelled from the spec: the type `translate.TranslationSet` (package `translate`,
not among the sources), a collection of entries fixed to one pair of domain tags.
The model keeps every recorded entry, in the order in which it was recorded; it
takes no stand on what the package does with two entries for one destination path. -/
structure TranslationSet (V : Type) where
  FromTag : String
  ToTag : String
  Entries : List (Entry V)
deriving DecidableEq, Repr

/-- Modelled from the spec: `translate.NewTranslationSet`, the empty set for a pair of tags. -/
def NewTranslationSet {V : Type} (fromTag toTag : String) : TranslationSet V :=
  ⟨fromTag, toTag, []⟩

/-- Modelled from the spec: `ts.AddTranslation(from, to)`, the explicit mapping of one
destination path to one source path. -/
def TranslationSet.AddTranslation {V : Type} (ts : TranslationSet V)
    (fromPath toPath : path.ContextPath) : TranslationSet V :=
  { ts with Entries := ts.Entries ++ [Entry.translation fromPath toPath] }

/-- Modelled from the spec: `ts.AddIdentity(paths...)`: for each name, in turn, a
translation whose source and destination paths are both that one name. -/
def TranslationSet.AddIdentity {V : Type} (ts : TranslationSet V)
    (paths : List String) : TranslationSet V :=
  paths.foldl
    (fun acc p =>
      acc.AddTranslation (path.New acc.FromTag [path.Segment.field p])
        (path.New acc.ToTag [path.Segment.field p]))
    ts

/-- Modelled from the spec: `ts.AddFromCommonSource(common, toPath, value)`, the
common-source attribution of a newly created subtree. -/
def TranslationSet.AddFromCommonSource {V : Type} (ts : TranslationSet V)
    (common toPath : path.ContextPath) (value : V) : TranslationSet V :=
  { ts with Entries := ts.Entries ++ [Entry.commonSource common toPath value] }

/-- An entry with a segment put in front of its paths, on both sides. -/
def Entry.Prepend {V : Type} (seg : path.Segment) : Entry V → Entry V
  | Entry.translation f t => Entry.translation (f.Prepend [seg]) (t.Prepend [seg])
  | Entry.commonSource c t v => Entry.commonSource (c.Prepend [seg]) (t.Prepend [seg]) v

/-- Modelled from the spec: `ts.Prefix(seg)`, a new set in which every entry has the
segment put in front of both of its paths. -/
def TranslationSet.Prefix {V : Type} (ts : TranslationSet V)
    (seg : path.Segment) : TranslationSet V :=
  ⟨ts.FromTag, ts.ToTag, ts.Entries.map (Entry.Prepend seg)⟩

/-- Modelled from the spec: `ts.Merge(other)`, the union with no path rewriting. -/
def TranslationSet.Merge {V : Type} (ts other : TranslationSet V) : TranslationSet V :=
  { ts with Entries := ts.Entries ++ other.Entries }

/-- Modelled from the spec: `ts.MergeP(seg, other)`: `Prefix` on the set merged in,
then `Merge`. -/
def TranslationSet.MergeP {V : Type} (ts : TranslationSet V) (seg : path.Segment)
    (other : TranslationSet V) : TranslationSet V :=
  ts.Merge (other.Prefix seg)

end translate

/-! ## Package `types` (Ignition config, the destination tree) -/

namespace types

structure NodeGroup where
  ID : Option Int
  Name : Option String
deriving DecidableEq, Repr

structure NodeUser where
  ID : Option Int
  Name : Option String
deriving DecidableEq, Repr

structure Verification where
  Hash : Option String
deriving DecidableEq, Repr

structure HTTPHeader where
  Name : String
  Value : Option String
deriving DecidableEq, Repr

structure FileContents where
  Compression : Option String
  HTTPHeaders : List HTTPHeader
  Source : Option String
  Verification : Verification
deriving DecidableEq, Repr

structure File where
  Group : NodeGroup
  Overwrite : Option Bool
  Path : String
  User : NodeUser
  Append : List FileContents
  Contents : FileContents
  Mode : Option Int
deriving DecidableEq, Repr

structure Directory where
  Group : NodeGroup
  Overwrite : Option Bool
  Path : String
  User : NodeUser
  Mode : Option Int
deriving DecidableEq, Repr

structure Link where
  Group : NodeGroup
  Overwrite : Option Bool
  Path : String
  User : NodeUser
  Hard : Option Bool
  Target : String
deriving DecidableEq, Repr

structure Filesystem where
  Device : String
  Format : Option String
  Label : Option String
  MountOptions : List String
  Options : List String
  Path : Option String
  UUID : Option String
  WipeFilesystem : Option Bool
deriving DecidableEq, Repr

structure Dropin where
  Contents : Option String
  Name : String
deriving DecidableEq, Repr

structure Unit where
  Contents : Option String
  Dropins : List Dropin
  Enabled : Option Bool
  Mask : Option Bool
  Name : String
deriving DecidableEq, Repr

structure Systemd where
  Units : List Unit
deriving DecidableEq, Repr

/-- The type `types.Config`. The sections that `addMountUnits` never reads are kept
as values of arbitrary types. -/
structure Config (I P S : Type) where
  Ignition : I
  Passwd : P
  Storage : S
  Systemd : Systemd
deriving DecidableEq, Repr

end types

/-! ## Library functions used by the translation

`dataurl.EscapeString` (github.com/vincent-petithory/dataurl),
`unit.UnitNamePathEscape` (github.com/coreos/go-systemd/unit) and `URL.String`
(net/url). The translation takes the two escaping functions as parameters
(`v0_2_exp.Lib`); the definitions below are the instances used in worked examples. -/

/-- The UTF-8 bytes of a string, as numbers below 256. -/
def stringBytes (s : String) : List Nat :=
  (s.data.flatMap String.utf8EncodeChar).map UInt8.toNat

/-- A hexadecimal digit, with capital or small letters. -/
def hexDigit (upper : Bool) (n : Nat) : Char :=
  if n < 10 then Char.ofNat (48 + n) else Char.ofNat ((if upper then 55 else 87) + n)

namespace dataurl

/-- The predicate `isUnreserved`: letters, digits and the marks - _ . ! ~ * ' ( ). -/
def isUnreserved (c : Nat) : Bool :=
  (97 ≤ c && c ≤ 122) || (65 ≤ c && c ≤ 90) || (48 ≤ c && c ≤ 57) ||
    c == 45 || c == 95 || c == 46 || c == 33 || c == 126 || c == 42 || c == 39 ||
    c == 40 || c == 41

/-- The function `dataurl.Escape`: every byte that is not unreserved becomes `%XX`. -/
def Escape (data : List Nat) : String :=
  String.mk (data.flatMap fun b =>
    if isUnreserved b then [Char.ofNat b]
    else ['%', hexDigit true (b / 16), hexDigit true (b % 16)])

/-- The function `dataurl.EscapeString`. -/
def EscapeString (s : String) : String :=
  Escape (stringBytes s)

end dataurl

namespace unit

/-- The bytes of the constant `allowed`: letters, digits, and `:`, `_`, `.`. -/
def allowed (c : Nat) : Bool :=
  (97 ≤ c && c ≤ 122) || (65 ≤ c && c ≤ 90) || (48 ≤ c && c ≤ 57) ||
    c == 58 || c == 95 || c == 46

/-- The byte `c` as `\x` followed by its hexadecimal digits (`fmt.Sprintf` with `%x`). -/
def escapeByte (c : Nat) : List Char :=
  if c < 16 then [Char.ofNat 92, 'x', hexDigit false c]
  else [Char.ofNat 92, 'x', hexDigit false (c / 16), hexDigit false (c % 16)]

/-- The loop of `escape` with `isPath` set: the bytes still to read, the flags
`inSlashes` and `start`, and the output so far. -/
def escapePathLoop : List Nat → Bool → Bool → List Char → List Char
  | [], _, _, e => e
  | c :: rest, inSlashes, start, e =>
    if c = 47 then escapePathLoop rest true start e
    else
      let e1 := if inSlashes && !start then e ++ ['-'] else e
      let e2 :=
        if (start && c == 46) || !allowed c then e1 ++ escapeByte c
        else e1 ++ [Char.ofNat c]
      escapePathLoop rest false false e2

/-- The function `unit.UnitNamePathEscape`: `escape(unescaped, true)`. -/
def UnitNamePathEscape (unescaped : String) : String :=
  let e := escapePathLoop (stringBytes unescaped) false true []
  String.mk (if e.length = 0 then ['-'] else e)

end unit

namespace url

/-- The fields of `url.URL` that `translateFileContents` sets; every other field is
left at its zero value. -/
structure URL where
  Scheme : String
  Opaque : String
deriving DecidableEq, Repr

/-- The method `URL.String` on a URL whose host, path, user, query and fragment are
empty: the scheme and a colon when there is a scheme, then the opaque part. -/
def URL.String (u : URL) : String :=
  (if u.Scheme ≠ "" then u.Scheme ++ ":" else "") ++ u.Opaque

end url

/-! ## Package `v0_2_exp` (base/v0_2_exp/translate.go) -/

namespace v0_2_exp

structure NodeGroup where
  ID : Option Int
  Name : Option String
deriving DecidableEq, Repr

structure NodeUser where
  ID : Option Int
  Name : Option String
deriving DecidableEq, Repr

structure Verification where
  Hash : Option String
deriving DecidableEq, Repr

structure HTTPHeader where
  Name : String
  Value : Option String
deriving DecidableEq, Repr

structure FileContents where
  Compression : Option String
  HTTPHeaders : List HTTPHeader
  Source : Option String
  Inline : Option String
  Verification : Verification
deriving DecidableEq, Repr

structure File where
  Group : NodeGroup
  Overwrite : Option Bool
  Path : String
  User : NodeUser
  Append : List FileContents
  Contents : FileContents
  Mode : Option Int
deriving DecidableEq, Repr

structure Directory where
  Group : NodeGroup
  Overwrite : Option Bool
  Path : String
  User : NodeUser
  Mode : Option Int
deriving DecidableEq, Repr

structure Link where
  Group : NodeGroup
  Overwrite : Option Bool
  Path : String
  User : NodeUser
  Hard : Option Bool
  Target : String
deriving DecidableEq, Repr

structure Filesystem where
  Device : String
  Format : Option String
  Label : Option String
  MountOptions : List String
  Options : List String
  Path : Option String
  UUID : Option String
  WipeFilesystem : Option Bool
  WithMountUnit : Option Bool
deriving DecidableEq, Repr

/-- The section `Storage` of the source config, with the lists whose element types
have an override in this package. -/
structure Storage where
  Directories : List Directory
  Files : List File
  Filesystems : List Filesystem
  Links : List Link
deriving DecidableEq, Repr

/-- The source config; `addMountUnits` reads `c.Storage.Filesystems` only. -/
structure Config where
  Storage : Storage
deriving DecidableEq, Repr

/-- The translation sets of this package; the only values it passes to
`AddFromCommonSource` are generated units. -/
abbrev TranslationSet := translate.TranslationSet types.Unit

/-- The two escaping functions of other libraries, taken as parameters. -/
structure Lib where
  EscapeString : String → String
  UnitNamePathEscape : String → String

/-- The instance of `Lib` with the library functions as modelled above. -/
def goLib : Lib :=
  ⟨dataurl.EscapeString, unit.UnitNamePathEscape⟩

/-- The walk of `tr.Translate` (the reflection-driven engine of package `translate`,
not among the sources) on the nested values for which the translator has no
override, taken as parameters: the destination value and the entries recorded. -/
structure Translator where
  Group : NodeGroup → types.NodeGroup × List (translate.Entry types.Unit)
  User : NodeUser → types.NodeUser × List (translate.Entry types.Unit)
  Verification : Verification → types.Verification × List (translate.Entry types.Unit)
  HTTPHeaders : List HTTPHeader → List types.HTTPHeader × List (translate.Entry types.Unit)
  MountOptions : List String → List String × List (translate.Entry types.Unit)
  Options : List String → List String × List (translate.Entry types.Unit)

/-- The call `tr.Translate(&from.X, &to.X)` on a translator made by
`translate.NewTranslator("yaml", "json")`: the destination value, and the entries
of the walk in a set with these two tags. -/
def Translate {A B : Type} (walk : A → B × List (translate.Entry types.Unit)) (x : A) :
    B × TranslationSet :=
  ((walk x).1, ⟨"yaml", "json", (walk x).2⟩)

/-- The function `translateFileContents` (lines 86-102). -/
def translateFileContents (lib : Lib) (tr : Translator) (frm : FileContents) :
    types.FileContents × TranslationSet :=
  let verification := Translate tr.Verification frm.Verification
  let tm := verification.2.Prefix (path.Segment.field "verification")
  let httpHeaders := Translate tr.HTTPHeaders frm.HTTPHeaders
  let tm := tm.MergeP (path.Segment.field "httpHeaders") httpHeaders.2
  let to0 : types.FileContents :=
    { Verification := verification.1, HTTPHeaders := httpHeaders.1,
      Source := frm.Source, Compression := frm.Compression }
  let tm := tm.AddIdentity ["source", "compression"]
  match frm.Inline with
  | some inline =>
    let src := (url.URL.mk "data" ("," ++ lib.EscapeString inline)).String
    ({ to0 with Source := some src },
      tm.AddTranslation (path.New "yaml" [path.Segment.field "inline"])
        (path.New "json" [path.Segment.field "source"]))
  | none => (to0, tm)

/-- Modelled from the spec: the walk of `tr.Translate` (package `translate`, not among
the sources) over an ordered sequence whose element type has a registered override:
element by element, by position, the set of each element put under its index on
both sides. -/
def translateSequence {A B : Type} (f : A → B × TranslationSet) :
    Nat → List A → List B × TranslationSet
  | _, [] => ([], translate.NewTranslationSet "yaml" "json")
  | i, x :: xs =>
    let r := f x
    let rs := translateSequence f (i + 1) xs
    (r.1 :: rs.1, (r.2.Prefix (path.Segment.index i)).Merge rs.2)

/-- The function `translateFile` (lines 72-84); its translator has the override
`translateFileContents`, which it runs on `Contents` and on each element of `Append`. -/
def translateFile (lib : Lib) (tr : Translator) (frm : File) :
    types.File × TranslationSet :=
  let group := Translate tr.Group frm.Group
  let tm := group.2.Prefix (path.Segment.field "group")
  let user := Translate tr.User frm.User
  let tm := tm.MergeP (path.Segment.field "user") user.2
  let append := translateSequence (translateFileContents lib tr) 0 frm.Append
  let tm := tm.MergeP (path.Segment.field "append") append.2
  let contents := translateFileContents lib tr frm.Contents
  let tm := tm.MergeP (path.Segment.field "contents") contents.2
  ({ Group := group.1, User := user.1, Append := append.1, Contents := contents.1,
     Overwrite := frm.Overwrite, Path := frm.Path, Mode := frm.Mode },
    tm.AddIdentity ["overwrite", "path", "mode"])

/-- The function `translateDirectory` (lines 104-113). -/
def translateDirectory (tr : Translator) (frm : Directory) :
    types.Directory × TranslationSet :=
  let group := Translate tr.Group frm.Group
  let tm := group.2.Prefix (path.Segment.field "group")
  let user := Translate tr.User frm.User
  let tm := tm.MergeP (path.Segment.field "user") user.2
  ({ Group := group.1, User := user.1,
     Overwrite := frm.Overwrite, Path := frm.Path, Mode := frm.Mode },
    tm.AddIdentity ["overwrite", "path", "mode"])

/-- The function `translateLink` (lines 115-125). -/
def translateLink (tr : Translator) (frm : Link) : types.Link × TranslationSet :=
  let group := Translate tr.Group frm.Group
  let tm := group.2.Prefix (path.Segment.field "group")
  let user := Translate tr.User frm.User
  let tm := tm.MergeP (path.Segment.field "user") user.2
  ({ Group := group.1, User := user.1, Target := frm.Target, Hard := frm.Hard,
     Overwrite := frm.Overwrite, Path := frm.Path },
    tm.AddIdentity ["target", "hard", "overwrite", "path"])

/-- The function `translateFilesystem` (lines 127-139). -/
def translateFilesystem (tr : Translator) (frm : Filesystem) :
    types.Filesystem × TranslationSet :=
  let mountOptions := Translate tr.MountOptions frm.MountOptions
  let tm := mountOptions.2.Prefix (path.Segment.field "mount_options")
  let options := Translate tr.Options frm.Options
  let tm := tm.MergeP (path.Segment.field "options") options.2
  ({ MountOptions := mountOptions.1, Options := options.1, Device := frm.Device,
     Label := frm.Label, Format := frm.Format, Path := frm.Path, UUID := frm.UUID,
     WipeFilesystem := frm.WipeFilesystem },
    tm.AddIdentity ["device", "format", "label", "path", "uuid", "wipeFilesystem"])

/-- What `text/template` prints for a `*string` field: the string, or `<nil>`. -/
def printPtr : Option String → String
  | some s => s
  | none => "<nil>"

/-- The template `mountUnitTemplate` (lines 32-44) executed on a filesystem. -/
def mountUnitTemplate (fs : Filesystem) : String :=
  "# Generated by FCCT\n[Unit]\nBefore=local-fs.target\nRequires=systemd-fsck@"
    ++ fs.Device ++ "\nAfter=systemd-fsck@" ++ fs.Device
    ++ "\n\n[Mount]\nWhere=" ++ printPtr fs.Path ++ "\nWhat=" ++ fs.Device
    ++ "\nType=" ++ printPtr fs.Format ++ "\n\n[Install]\nRequiredBy=local-fs.target"

/-- The function `mountUnitFromFS` (lines 178-191); the unchecked `*fs.Path` panics
on a filesystem without a path. -/
def mountUnitFromFS (lib : Lib) (fs : Filesystem) : Option types.Unit :=
  let contents := mountUnitTemplate fs
  match fs.Path with
  | none => none
  | some p =>
    some { Name := lib.UnitNamePathEscape p ++ ".mount", Enabled := some true,
           Contents := some contents, Dropins := [], Mask := none }

/-- The map `unitMap` after the loop of lines 147-149 has read `units`, the first of
them at index `i`, starting from the map `m`. -/
def unitMapFrom : Nat → List types.Unit → (String → Option Nat) → String → Option Nat
  | _, [], m => m
  | i, u :: rest, m => unitMapFrom (i + 1) rest (fun k => if k = u.Name then some i else m k)

/-- The map `unitMap` of lines 146-149: from the name of a unit to its index in
`units`, the last index when several units have the name. -/
def unitMap (units : List types.Unit) : String → Option Nat :=
  unitMapFrom 0 units (fun _ => none)

/-- The destination config with its list of units replaced. -/
def setUnits {I P S : Type} (ret : types.Config I P S) (units : List types.Unit) :
    types.Config I P S :=
  { ret with Systemd := { ret.Systemd with Units := units } }

/-- Lines 161-168: an existing unit `u` takes `Contents` and `Enabled` of the generated
unit where its own are nil, and each field so filled gets a translation. -/
def fillUnit (fromPath unitPath : path.ContextPath) (newUnit u : types.Unit)
    (ts : TranslationSet) : types.Unit × TranslationSet :=
  let r1 : types.Unit × TranslationSet :=
    if u.Contents = none then
      ({ u with Contents := newUnit.Contents },
        ts.AddTranslation fromPath (unitPath.Append [path.Segment.field "contents"]))
    else (u, ts)
  if r1.1.Enabled = none then
    ({ r1.1 with Enabled := newUnit.Enabled },
      r1.2.AddTranslation fromPath (unitPath.Append [path.Segment.field "enabled"]))
  else r1

/-- One iteration of the loop of lines 150-174, on the filesystem `fs` at index `i`. -/
def addMountUnitsStep {I P S : Type} (lib : Lib) (unitMap : String → Option Nat)
    (i : Nat) (fs : Filesystem) (ret : types.Config I P S) (ts : TranslationSet) :
    Option (types.Config I P S × TranslationSet) :=
  match fs.WithMountUnit with
  | none => some (ret, ts)
  | some false => some (ret, ts)
  | some true =>
    let fromPath := path.New "yaml"
      [path.Segment.field "storage", path.Segment.field "filesystems",
        path.Segment.index i, path.Segment.field "with_mount_unit"]
    match mountUnitFromFS lib fs, fs.Path with
    | some newUnit, some p =>
      match unitMap (lib.UnitNamePathEscape p ++ ".mount") with
      | some j =>
        match ret.Systemd.Units[j]? with
        | none => none
        | some u =>
          let unitPath := path.New "json"
            [path.Segment.field "systemd", path.Segment.field "units", path.Segment.index j]
          let r := fillUnit fromPath unitPath newUnit u ts
          some (setUnits ret (ret.Systemd.Units.set j r.1), r.2)
      | none =>
        let unitPath := path.New "json"
          [path.Segment.field "systemd", path.Segment.field "units",
            path.Segment.index ret.Systemd.Units.length]
        some (setUnits ret (ret.Systemd.Units ++ [newUnit]),
          ts.AddFromCommonSource fromPath unitPath newUnit)
    | _, _ => none

/-- The loop of lines 150-174 over the filesystems still to read, the first of them
at index `i`. -/
def addMountUnitsLoop {I P S : Type} (lib : Lib) (unitMap : String → Option Nat) :
    Nat → List Filesystem → types.Config I P S → TranslationSet →
      Option (types.Config I P S × TranslationSet)
  | _, [], ret, ts => some (ret, ts)
  | i, fs :: rest, ret, ts =>
    match addMountUnitsStep lib unitMap i fs ret ts with
    | none => none
    | some r => addMountUnitsLoop lib unitMap (i + 1) rest r.1 r.2

/-- The method `Config.addMountUnits` (lines 141-176): the destination config after
the call and the translation set returned, or `none` when the call panics. -/
def addMountUnits {I P S : Type} (lib : Lib) (c : Config) (ret : types.Config I P S) :
    Option (types.Config I P S × TranslationSet) :=
  let ts : TranslationSet := translate.NewTranslationSet "yaml" "json"
  if c.Storage.Filesystems.length = 0 then some (ret, ts)
  else
    addMountUnitsLoop lib (unitMap ret.Systemd.Units) 0 c.Storage.Filesystems ret ts

end v0_2_exp

/-! ## Package `report` (github.com/coreos/vcontext/report) -/

namespace report

inductive EntryKind where
  | Error
  | Warn
  | Info
deriving DecidableEq, Repr

structure Entry where
  Kind : EntryKind
  Message : String
  Context : path.ContextPath
deriving DecidableEq, Repr

structure Report where
  Entries : List Entry
deriving DecidableEq, Repr

/-- The method `Report.IsFatal`: some entry is an error. -/
def Report.IsFatal (r : Report) : Bool :=
  r.Entries.any (fun e => e.Kind == EntryKind.Error)

/-- The method `Report.Merge`: the entries of the child are added at the end. -/
def Report.Merge (r child : Report) : Report :=
  ⟨r.Entries ++ child.Entries⟩

end report

/-! ## Package `v1_2_exp` (config/flatcar/v1_2_exp/translate.go) -/

namespace v1_2_exp

set_option linter.dupNamespace false in
/-- The Flatcar config: it embeds the base config. -/
structure Config (Base : Type) where
  Config : Base

/-- What `Config.ToIgn3_5Unvalidated` calls and is not among the sources, taken as
parameters: the method `ToIgn3_5Unvalidated` of the embedded base config,
`fieldFilters.Verify`, and the zero value of `types.Config`. -/
structure Deps (Base Options IgnConfig V : Type) where
  baseToIgn3_5Unvalidated :
    Base → Options → IgnConfig × translate.TranslationSet V × report.Report
  fieldFiltersVerify : IgnConfig → report.Report
  zeroConfig : IgnConfig

/-- The method `Config.ToIgn3_5Unvalidated` (lines 36-45). -/
def Config.ToIgn3_5Unvalidated {Base Options IgnConfig V : Type}
    (d : Deps Base Options IgnConfig V) (c : v1_2_exp.Config Base) (options : Options) :
    IgnConfig × translate.TranslationSet V × report.Report :=
  let base := d.baseToIgn3_5Unvalidated c.Config options
  let ret := base.1
  let ts := base.2.1
  let r := base.2.2
  if r.IsFatal then (d.zeroConfig, ⟨"", "", []⟩, r)
  else (ret, ts, r.Merge (d.fieldFiltersVerify ret))

end v1_2_exp

/-! ## Vocabulary of the statements -/

namespace translate

/-- The source path of an entry. -/
def Entry.From {V : Type} : Entry V → path.ContextPath
  | Entry.translation f _ => f
  | Entry.commonSource c _ _ => c

/-- The destination path of an entry. -/
def Entry.To {V : Type} : Entry V → path.ContextPath
  | Entry.translation _ t => t
  | Entry.commonSource _ t _ => t

/-- The destination paths of the `AddTranslation` entries, in recording order. -/
def translationTos {V : Type} : List (Entry V) → List path.ContextPath
  | [] => []
  | Entry.translation _ t :: es => t :: translationTos es
  | Entry.commonSource _ _ _ :: es => translationTos es

/-- The destination paths of the `AddFromCommonSource` entries, in recording order. -/
def commonTos {V : Type} : List (Entry V) → List path.ContextPath
  | [] => []
  | Entry.translation _ _ :: es => commonTos es
  | Entry.commonSource _ t _ :: es => t :: commonTos es

end translate

namespace v0_2_exp

/-- The identity translation of the single field name `n`, from yaml to json. -/
def identityEntry (n : String) : translate.Entry types.Unit :=
  translate.Entry.translation (path.New "yaml" [path.Segment.field n])
    (path.New "json" [path.Segment.field n])

/-- The yaml path `storage.filesystems.i.with_mount_unit`. -/
def flagPath (i : Nat) : path.ContextPath :=
  path.New "yaml"
    [path.Segment.field "storage", path.Segment.field "filesystems",
      path.Segment.index i, path.Segment.field "with_mount_unit"]

/-- The json path `systemd.units.j`. -/
def unitPath (j : Nat) : path.ContextPath :=
  path.New "json"
    [path.Segment.field "systemd", path.Segment.field "units", path.Segment.index j]

/-- The json path `systemd.units.j.<field>`. -/
def unitFieldPath (j : Nat) (field : String) : path.ContextPath :=
  (unitPath j).Append [path.Segment.field field]

/-- The unit name of a mount point: `UnitNamePathEscape(path) + ".mount"`. -/
def unitName (lib : Lib) (p : String) : String :=
  lib.UnitNamePathEscape p ++ ".mount"

/-- A filesystem is flagged: `WithMountUnit` is present and true. -/
def flagged (fs : Filesystem) : Bool :=
  fs.WithMountUnit == some true

/-- A flagged filesystem whose unit name is not the name of any of `units`. -/
def appendsUnit (lib : Lib) (units : List types.Unit) (fs : Filesystem) : Bool :=
  flagged fs &&
    match fs.Path with
    | some p => !(units.map (fun u => u.Name)).contains (unitName lib p)
    | none => false

/-- The unit names of the flagged filesystems whose unit name is not the name of any of
`units`, in the order of the filesystems. -/
def appendedNames (lib : Lib) (units : List types.Unit) (fss : List Filesystem) :
    List String :=
  (fss.filter (appendsUnit lib units)).filterMap (fun fs => fs.Path.map (unitName lib))

/-- Every flagged filesystem has a path (the precondition of the unchecked
dereference in `mountUnitFromFS`, line 184). -/
def flaggedHavePaths (fss : List Filesystem) : Prop :=
  ∀ fs ∈ fss, fs.WithMountUnit = some true → fs.Path ≠ none

/-- The unit `u1` keeps what the unit `u` has: its name, drop-ins and mask, and its
contents and enable flag where they are present. -/
def keeps (u u1 : types.Unit) : Prop :=
  u1.Name = u.Name ∧ u1.Dropins = u.Dropins ∧ u1.Mask = u.Mask ∧
    (u.Contents ≠ none → u1.Contents = u.Contents) ∧
    (u.Enabled ≠ none → u1.Enabled = u.Enabled)

/-- The state of the loop of `addMountUnits` after its first `k` iterations: the
destination `ret` and the set `ts`, against the destination `ret0` before the call
and the filesystems `fss` of the source config. -/
structure MountInv {I P S : Type} (lib : Lib) (fss : List Filesystem)
    (ret0 : types.Config I P S) (k : Nat) (ret : types.Config I P S)
    (ts : TranslationSet) : Prop where
  len : ret0.Systemd.Units.length ≤ ret.Systemd.Units.length
  frame : ∀ (j : Nat) (u : types.Unit), ret0.Systemd.Units[j]? = some u →
    ∃ u1, ret.Systemd.Units[j]? = some u1 ∧ keeps u u1
  other : ret.Ignition = ret0.Ignition ∧ ret.Passwd = ret0.Passwd ∧
    ret.Storage = ret0.Storage
  appended : (ret.Systemd.Units.drop ret0.Systemd.Units.length).map some =
    ((fss.take k).filter (appendsUnit lib ret0.Systemd.Units)).map (mountUnitFromFS lib)
  transNodup : (translate.translationTos ts.Entries).Nodup
  commonNodup : (translate.commonTos ts.Entries).Nodup
  transTo : ∀ p ∈ translate.translationTos ts.Entries,
    ∃ j, j < ret0.Systemd.Units.length ∧
      ((p = unitFieldPath j "contents" ∧
          ∃ u, ret.Systemd.Units[j]? = some u ∧ u.Contents ≠ none) ∨
        (p = unitFieldPath j "enabled" ∧
          ∃ u, ret.Systemd.Units[j]? = some u ∧ u.Enabled ≠ none))
  commonTo : ∀ p ∈ translate.commonTos ts.Entries,
    ∃ j, ret0.Systemd.Units.length ≤ j ∧ j < ret.Systemd.Units.length ∧ p = unitPath j
  sources : ∀ e ∈ ts.Entries, ∃ t fs, t < k ∧ fss[t]? = some fs ∧
    fs.WithMountUnit = some true ∧ e.From = flagPath t
  common : ∀ t fs nu, t < k → fss[t]? = some fs →
    appendsUnit lib ret0.Systemd.Units fs = true → mountUnitFromFS lib fs = some nu →
    ret.Systemd.Units[ret0.Systemd.Units.length +
        ((fss.take t).filter (appendsUnit lib ret0.Systemd.Units)).length]? = some nu ∧
    translate.Entry.commonSource (flagPath t)
        (unitPath (ret0.Systemd.Units.length +
          ((fss.take t).filter (appendsUnit lib ret0.Systemd.Units)).length)) nu
      ∈ ts.Entries
  untouched : ∀ j, j < ret0.Systemd.Units.length →
    (∀ t fs p, t < k → fss[t]? = some fs → fs.WithMountUnit = some true →
      fs.Path = some p → unitMap ret0.Systemd.Units (unitName lib p) ≠ some j) →
    ret.Systemd.Units[j]? = ret0.Systemd.Units[j]?
  reached : addMountUnitsLoop lib (unitMap ret0.Systemd.Units) 0 (fss.take k) ret0
      (translate.NewTranslationSet "yaml" "json") = some (ret, ts)
  every : ∀ t fs p j before ub, t < k → fss[t]? = some fs →
    fs.WithMountUnit = some true → fs.Path = some p →
    unitMap ret0.Systemd.Units (unitName lib p) = some j →
    addMountUnitsLoop lib (unitMap ret0.Systemd.Units) 0 (fss.take t) ret0
      (translate.NewTranslationSet "yaml" "json") = some before →
    before.1.Systemd.Units[j]? = some ub →
    ∃ u1, ret.Systemd.Units[j]? = some u1 ∧
      u1.Contents =
        (if ub.Contents = none then some (mountUnitTemplate fs) else ub.Contents) ∧
      u1.Enabled = (if ub.Enabled = none then some true else ub.Enabled) ∧
      (translate.Entry.translation (flagPath t) (unitFieldPath j "contents") ∈ ts.Entries
        ↔ ub.Contents = none) ∧
      (translate.Entry.translation (flagPath t) (unitFieldPath j "enabled") ∈ ts.Entries
        ↔ ub.Enabled = none)

/-- A translator whose walks copy the values and record nothing, for worked examples. -/
def copyTranslator : Translator :=
  { Group := fun g => (⟨g.ID, g.Name⟩, [])
    User := fun u => (⟨u.ID, u.Name⟩, [])
    Verification := fun v => (⟨v.Hash⟩, [])
    HTTPHeaders := fun hs => (hs.map (fun h => ⟨h.Name, h.Value⟩), [])
    MountOptions := fun l => (l, [])
    Options := fun l => (l, []) }

/-- A file-contents value with the inline text `hello` and a source. -/
def helloContents : FileContents :=
  { Compression := none, HTTPHeaders := [], Source := some "https://example.com/f",
    Inline := some "hello", Verification := ⟨none⟩ }

/-- A file, for worked examples. -/
def sampleFile : File :=
  { Group := ⟨none, some "root"⟩, Overwrite := some true, Path := "/etc/motd",
    User := ⟨some 0, none⟩, Append := [helloContents], Contents := helloContents,
    Mode := some 420 }

/-- A directory, for worked examples. -/
def sampleDirectory : Directory :=
  { Group := ⟨none, none⟩, Overwrite := none, Path := "/srv", User := ⟨none, none⟩,
    Mode := some 493 }

/-- A link, for worked examples. -/
def sampleLink : Link :=
  { Group := ⟨none, none⟩, Overwrite := some false, Path := "/etc/localtime",
    User := ⟨none, none⟩, Hard := none, Target := "/usr/share/zoneinfo/UTC" }

/-- A flagged filesystem mounted on `/var`. -/
def fsVar : Filesystem :=
  { Device := "/dev/sda1", Format := some "ext4", Label := none, MountOptions := [],
    Options := [], Path := some "/var", UUID := none, WipeFilesystem := none,
    WithMountUnit := some true }

/-- A second flagged filesystem mounted on `/var`, on another device. -/
def fsVarAgain : Filesystem :=
  { Device := "/dev/sdb1", Format := some "xfs", Label := none, MountOptions := [],
    Options := [], Path := some "/var", UUID := none, WipeFilesystem := none,
    WithMountUnit := some true }

/-- A filesystem that is not flagged. -/
def fsPlain : Filesystem :=
  { Device := "/dev/sdc1", Format := some "ext4", Label := none, MountOptions := [],
    Options := [], Path := some "/srv", UUID := none, WipeFilesystem := none,
    WithMountUnit := none }

/-- A flagged filesystem mounted on `/srv`. -/
def fsSrv : Filesystem :=
  { Device := "/dev/sdd1", Format := some "btrfs", Label := none, MountOptions := [],
    Options := [], Path := some "/srv", UUID := none, WipeFilesystem := none,
    WithMountUnit := some true }

/-- A source config with the given filesystems and nothing else. -/
def configOf (fss : List Filesystem) : Config :=
  ⟨⟨[], [], fss, []⟩⟩

/-- A destination config with the given units. -/
def retOf (units : List types.Unit) : types.Config Unit Unit Unit :=
  ⟨(), (), (), ⟨units⟩⟩

/-- A unit `var.mount` written by the user with contents and no enable flag. -/
def userVarUnit : types.Unit :=
  { Name := "var.mount", Contents := some "[Mount]\nWhat=/dev/sdz", Dropins := [],
    Enabled := none, Mask := some false }

/-- A service unit written by the user. -/
def fooService : types.Unit :=
  { Name := "foo.service", Contents := some "[Service]\nExecStart=/bin/true",
    Dropins := [], Enabled := some true, Mask := none }

/-- A unit `var.mount` written by the user with neither contents nor enable flag. -/
def bareVarUnit : types.Unit :=
  { Name := "var.mount", Contents := none, Dropins := [], Enabled := none, Mask := none }

end v0_2_exp

namespace v1_2_exp

/-- A report with one error. -/
def fatalReport : report.Report :=
  ⟨[⟨report.EntryKind.Error, "bad", path.New "yaml" []⟩]⟩

/-- A report with one warning. -/
def warnReport : report.Report :=
  ⟨[⟨report.EntryKind.Warn, "careful", path.New "yaml" []⟩]⟩

/-- An instance of the parameters for worked examples: the base translation returns
the number it is given as the config, with a report that is fatal on `0`. -/
def sampleDeps : Deps Nat Unit Nat Unit :=
  { baseToIgn3_5Unvalidated := fun b _ =>
      (b, ⟨"yaml", "json", []⟩, if b = 0 then fatalReport else warnReport)
    fieldFiltersVerify := fun _ => warnReport
    zeroConfig := 0 }

end v1_2_exp

/-! ## Theorems -/

namespace translate

theorem entries_addIdentity {V : Type} (names : List String) (ts : TranslationSet V) :
    (ts.AddIdentity names).Entries =
      ts.Entries ++ names.map (fun n =>
        Entry.translation (path.New ts.FromTag [path.Segment.field n])
          (path.New ts.ToTag [path.Segment.field n])) ∧
    (ts.AddIdentity names).FromTag = ts.FromTag ∧
    (ts.AddIdentity names).ToTag = ts.ToTag := by
  induction names generalizing ts with
  | nil => simp [TranslationSet.AddIdentity]
  | cons n rest ih =>
    have h := ih (ts.AddTranslation (path.New ts.FromTag [path.Segment.field n])
        (path.New ts.ToTag [path.Segment.field n]))
    simp only [TranslationSet.AddIdentity, List.foldl_cons] at h ⊢
    simp only [TranslationSet.AddTranslation] at h ⊢
    refine ⟨?_, h.2.1, h.2.2⟩
    rw [h.1]
    simp

theorem to_prepend_head {V : Type} (seg : path.Segment) (e : Entry V) :
    (Entry.Prepend seg e).To.Path.head? = some seg ∧
    (Entry.Prepend seg e).From.Path.head? = some seg := by
  cases e <;> simp [Entry.Prepend, Entry.To, Entry.From, path.ContextPath.Prepend]

end translate

open translate

namespace v0_2_exp

/-- C1: when `Inline` is present, whatever `Source` is, the destination `Source` is
present and is `data:,` followed by `EscapeString` of the inline text, and the set
returned contains the translation from yaml `inline` to json `source`. -/
theorem translateFileContents_inline (lib : Lib) (tr : Translator) (frm : FileContents)
    (inline : String) (h : frm.Inline = some inline) :
    (translateFileContents lib tr frm).1.Source
        = some ("data:," ++ lib.EscapeString inline) ∧
    Entry.translation (path.New "yaml" [path.Segment.field "inline"])
        (path.New "json" [path.Segment.field "source"])
      ∈ (translateFileContents lib tr frm).2.Entries := by
  simp only [translateFileContents, h]
  constructor
  · have hd : "data:" ++ "," = "data:," := by decide
    simp [url.URL.String, ← String.append_assoc, hd]
  · simp [TranslationSet.AddTranslation]

theorem translateFileContents_inline_hello :
    helloContents.Inline = some "hello" ∧
    (translateFileContents goLib copyTranslator helloContents).1.Source
        = some "data:,hello" ∧
    Entry.translation (path.New "yaml" [path.Segment.field "inline"])
        (path.New "json" [path.Segment.field "source"])
      ∈ (translateFileContents goLib copyTranslator helloContents).2.Entries :=
  ⟨rfl,
    (translateFileContents_inline goLib copyTranslator helloContents "hello" rfl).1.trans
      (by decide),
    (translateFileContents_inline goLib copyTranslator helloContents "hello" rfl).2⟩

theorem nested_heads (segs : List path.Segment) (es : List (Entry types.Unit))
    (h : ∀ e ∈ es, ∃ seg ∈ segs, ∃ e0 : Entry types.Unit, e = Entry.Prepend seg e0) :
    ∀ e ∈ es, ∃ seg ∈ segs, e.To.Path.head? = some seg ∧ e.From.Path.head? = some seg := by
  intro e he
  obtain ⟨seg, hseg, e0, rfl⟩ := h e he
  exact ⟨seg, hseg, to_prepend_head seg e0⟩

theorem translateFile_entries (lib : Lib) (tr : Translator) (file : File) :
    (translateFile lib tr file).2.Entries =
      ((((tr.Group file.Group).2.map (Entry.Prepend (path.Segment.field "group")) ++
          (tr.User file.User).2.map (Entry.Prepend (path.Segment.field "user"))) ++
          (translateSequence (translateFileContents lib tr) 0 file.Append).2.Entries.map
            (Entry.Prepend (path.Segment.field "append"))) ++
          (translateFileContents lib tr file.Contents).2.Entries.map
            (Entry.Prepend (path.Segment.field "contents"))) ++
        [identityEntry "overwrite", identityEntry "path", identityEntry "mode"] := by
  simp only [translateFile]
  rw [(entries_addIdentity _ _).1]
  simp only [TranslationSet.MergeP, TranslationSet.Merge, TranslationSet.Prefix,
    Translate, List.map_cons, List.map_nil, identityEntry]

theorem translateDirectory_entries (tr : Translator) (dir : Directory) :
    (translateDirectory tr dir).2.Entries =
      ((tr.Group dir.Group).2.map (Entry.Prepend (path.Segment.field "group")) ++
          (tr.User dir.User).2.map (Entry.Prepend (path.Segment.field "user"))) ++
        [identityEntry "overwrite", identityEntry "path", identityEntry "mode"] := by
  simp only [translateDirectory]
  rw [(entries_addIdentity _ _).1]
  simp only [TranslationSet.MergeP, TranslationSet.Merge, TranslationSet.Prefix,
    Translate, List.map_cons, List.map_nil, identityEntry]

theorem translateLink_entries (tr : Translator) (link : Link) :
    (translateLink tr link).2.Entries =
      ((tr.Group link.Group).2.map (Entry.Prepend (path.Segment.field "group")) ++
          (tr.User link.User).2.map (Entry.Prepend (path.Segment.field "user"))) ++
        [identityEntry "target", identityEntry "hard", identityEntry "overwrite",
          identityEntry "path"] := by
  simp only [translateLink]
  rw [(entries_addIdentity _ _).1]
  simp only [TranslationSet.MergeP, TranslationSet.Merge, TranslationSet.Prefix,
    Translate, List.map_cons, List.map_nil, identityEntry]

theorem translateFilesystem_entries (tr : Translator) (fs : Filesystem) :
    (translateFilesystem tr fs).2.Entries =
      ((tr.MountOptions fs.MountOptions).2.map
            (Entry.Prepend (path.Segment.field "mount_options")) ++
          (tr.Options fs.Options).2.map (Entry.Prepend (path.Segment.field "options"))) ++
        [identityEntry "device", identityEntry "format", identityEntry "label",
          identityEntry "path", identityEntry "uuid", identityEntry "wipeFilesystem"] := by
  simp only [translateFilesystem]
  rw [(entries_addIdentity _ _).1]
  simp only [TranslationSet.MergeP, TranslationSet.Merge, TranslationSet.Prefix,
    Translate, List.map_cons, List.map_nil, identityEntry]

/-- C6: each of the overrides `translateFile`, `translateDirectory`, `translateLink`
and `translateFilesystem` copies its scalar fields unchanged, and the entries of the
set it returns are the entries of the nested walks, each under the name of its
nested field, followed by exactly one identity translation per copied field, whose
source and destination paths are that one field name. -/
theorem overrides_copy_and_identity (lib : Lib) (tr : Translator) (file : File)
    (dir : Directory) (link : Link) (fs : Filesystem) :
    ((translateFile lib tr file).1.Overwrite = file.Overwrite ∧
      (translateFile lib tr file).1.Path = file.Path ∧
      (translateFile lib tr file).1.Mode = file.Mode ∧
      ∃ nested, (translateFile lib tr file).2.Entries =
          nested ++ [identityEntry "overwrite", identityEntry "path", identityEntry "mode"] ∧
        ∀ e ∈ nested, ∃ seg ∈ [path.Segment.field "group", path.Segment.field "user",
            path.Segment.field "append", path.Segment.field "contents"],
          e.To.Path.head? = some seg ∧ e.From.Path.head? = some seg) ∧
    ((translateDirectory tr dir).1.Overwrite = dir.Overwrite ∧
      (translateDirectory tr dir).1.Path = dir.Path ∧
      (translateDirectory tr dir).1.Mode = dir.Mode ∧
      ∃ nested, (translateDirectory tr dir).2.Entries =
          nested ++ [identityEntry "overwrite", identityEntry "path", identityEntry "mode"] ∧
        ∀ e ∈ nested, ∃ seg ∈ [path.Segment.field "group", path.Segment.field "user"],
          e.To.Path.head? = some seg ∧ e.From.Path.head? = some seg) ∧
    ((translateLink tr link).1.Target = link.Target ∧
      (translateLink tr link).1.Hard = link.Hard ∧
      (translateLink tr link).1.Overwrite = link.Overwrite ∧
      (translateLink tr link).1.Path = link.Path ∧
      ∃ nested, (translateLink tr link).2.Entries =
          nested ++ [identityEntry "target", identityEntry "hard",
            identityEntry "overwrite", identityEntry "path"] ∧
        ∀ e ∈ nested, ∃ seg ∈ [path.Segment.field "group", path.Segment.field "user"],
          e.To.Path.head? = some seg ∧ e.From.Path.head? = some seg) ∧
    ((translateFilesystem tr fs).1.Device = fs.Device ∧
      (translateFilesystem tr fs).1.Label = fs.Label ∧
      (translateFilesystem tr fs).1.Format = fs.Format ∧
      (translateFilesystem tr fs).1.Path = fs.Path ∧
      (translateFilesystem tr fs).1.UUID = fs.UUID ∧
      (translateFilesystem tr fs).1.WipeFilesystem = fs.WipeFilesystem ∧
      ∃ nested, (translateFilesystem tr fs).2.Entries =
          nested ++ [identityEntry "device", identityEntry "format", identityEntry "label",
            identityEntry "path", identityEntry "uuid", identityEntry "wipeFilesystem"] ∧
        ∀ e ∈ nested, ∃ seg ∈ [path.Segment.field "mount_options",
            path.Segment.field "options"],
          e.To.Path.head? = some seg ∧ e.From.Path.head? = some seg) := by
  refine ⟨⟨rfl, rfl, rfl, ?_⟩, ⟨rfl, rfl, rfl, ?_⟩, ⟨rfl, rfl, rfl, rfl, ?_⟩,
    ⟨rfl, rfl, rfl, rfl, rfl, rfl, ?_⟩⟩
  · refine ⟨_, translateFile_entries lib tr file, nested_heads _ _ ?_⟩
    intro e he
    simp only [List.mem_append, List.mem_map] at he
    rcases he with ((⟨e0, _, rfl⟩ | ⟨e0, _, rfl⟩) | ⟨e0, _, rfl⟩) | ⟨e0, _, rfl⟩
    · exact ⟨_, by simp, e0, rfl⟩
    · exact ⟨_, by simp, e0, rfl⟩
    · exact ⟨_, by simp, e0, rfl⟩
    · exact ⟨_, by simp, e0, rfl⟩
  · refine ⟨_, translateDirectory_entries tr dir, nested_heads _ _ ?_⟩
    intro e he
    simp only [List.mem_append, List.mem_map] at he
    rcases he with ⟨e0, _, rfl⟩ | ⟨e0, _, rfl⟩
    · exact ⟨_, by simp, e0, rfl⟩
    · exact ⟨_, by simp, e0, rfl⟩
  · refine ⟨_, translateLink_entries tr link, nested_heads _ _ ?_⟩
    intro e he
    simp only [List.mem_append, List.mem_map] at he
    rcases he with ⟨e0, _, rfl⟩ | ⟨e0, _, rfl⟩
    · exact ⟨_, by simp, e0, rfl⟩
    · exact ⟨_, by simp, e0, rfl⟩
  · refine ⟨_, translateFilesystem_entries tr fs, nested_heads _ _ ?_⟩
    intro e he
    simp only [List.mem_append, List.mem_map] at he
    rcases he with ⟨e0, _, rfl⟩ | ⟨e0, _, rfl⟩
    · exact ⟨_, by simp, e0, rfl⟩
    · exact ⟨_, by simp, e0, rfl⟩

end v0_2_exp

namespace v1_2_exp

/-- C7: when the report of the embedded base config's translation is fatal, the
result is the zero config, an empty translation set and that report, whatever the
field filters are; otherwise it is the config and the translation set of the base
translation, with the base report merged with `fieldFilters.Verify` of that config. -/
theorem toIgn3_5Unvalidated_cases {Base Options IgnConfig V : Type}
    (d : Deps Base Options IgnConfig V) (c : v1_2_exp.Config Base) (options : Options) :
    ((d.baseToIgn3_5Unvalidated c.Config options).2.2.IsFatal = true →
      ∀ verify : IgnConfig → report.Report,
        Config.ToIgn3_5Unvalidated { d with fieldFiltersVerify := verify } c options =
          (d.zeroConfig, ⟨"", "", []⟩, (d.baseToIgn3_5Unvalidated c.Config options).2.2) ∧
        (Config.ToIgn3_5Unvalidated d c options).2.1.Entries = []) ∧
    ((d.baseToIgn3_5Unvalidated c.Config options).2.2.IsFatal = false →
      Config.ToIgn3_5Unvalidated d c options =
        ((d.baseToIgn3_5Unvalidated c.Config options).1,
          (d.baseToIgn3_5Unvalidated c.Config options).2.1,
          (d.baseToIgn3_5Unvalidated c.Config options).2.2.Merge
            (d.fieldFiltersVerify (d.baseToIgn3_5Unvalidated c.Config options).1))) := by
  constructor
  · intro h verify
    simp [Config.ToIgn3_5Unvalidated, h]
  · intro h
    simp [Config.ToIgn3_5Unvalidated, h]

theorem toIgn3_5Unvalidated_cases_sample :
    ((sampleDeps.baseToIgn3_5Unvalidated (Config.mk 0).Config ()).2.2.IsFatal = true ∧
      Config.ToIgn3_5Unvalidated sampleDeps ⟨0⟩ () = (0, ⟨"", "", []⟩, fatalReport)) ∧
    ((sampleDeps.baseToIgn3_5Unvalidated (Config.mk 7).Config ()).2.2.IsFatal = false ∧
      Config.ToIgn3_5Unvalidated sampleDeps ⟨7⟩ () =
        (7, ⟨"yaml", "json", []⟩, ⟨warnReport.Entries ++ warnReport.Entries⟩)) :=
  ⟨⟨by decide,
      ((toIgn3_5Unvalidated_cases sampleDeps ⟨0⟩ ()).1 (by decide)
        sampleDeps.fieldFiltersVerify).1⟩,
    ⟨by decide, (toIgn3_5Unvalidated_cases sampleDeps ⟨7⟩ ()).2 (by decide)⟩⟩

end v1_2_exp

namespace v0_2_exp

/-! ### The map of unit names -/

theorem unitMapFrom_of_not_mem (us : List types.Unit) (i : Nat) (m0 : String → Option Nat)
    (k : String) (h : k ∉ us.map (fun u => u.Name)) : unitMapFrom i us m0 k = m0 k := by
  induction us generalizing i m0 with
  | nil => rfl
  | cons u rest ih =>
    simp only [List.map_cons, List.mem_cons, not_or] at h
    simp only [unitMapFrom]
    rw [ih _ _ h.2]
    simp [h.1]

theorem unitMapFrom_some (us : List types.Unit) (i : Nat) (m0 : String → Option Nat)
    (k : String) (j : Nat) (h : unitMapFrom i us m0 k = some j) :
    m0 k = some j ∨ ∃ t u, us[t]? = some u ∧ u.Name = k ∧ j = i + t := by
  induction us generalizing i m0 with
  | nil => exact Or.inl h
  | cons u rest ih =>
    simp only [unitMapFrom] at h
    rcases ih _ _ h with h1 | ⟨t, u', ht, hn, hj⟩
    · by_cases hk : k = u.Name
      · simp only [hk, if_true] at h1
        refine Or.inr ⟨0, u, by simp, hk.symm, ?_⟩
        simpa using (Option.some.inj h1).symm
      · simp only [hk, if_false] at h1
        exact Or.inl h1
    · exact Or.inr ⟨t + 1, u', by simpa using ht, hn, by omega⟩

theorem unitMapFrom_of_mem (us : List types.Unit) (i : Nat) (m0 : String → Option Nat)
    (k : String) (h : k ∈ us.map (fun u => u.Name)) :
    ∃ j, unitMapFrom i us m0 k = some j := by
  induction us generalizing i m0 with
  | nil => simp at h
  | cons u rest ih =>
    simp only [unitMapFrom]
    by_cases hr : k ∈ rest.map (fun u => u.Name)
    · exact ih _ _ hr
    · rw [unitMapFrom_of_not_mem _ _ _ _ hr]
      simp only [List.map_cons, List.mem_cons] at h
      rcases h with h | h
      · exact ⟨i, by simp [h]⟩
      · exact absurd h hr

theorem unitMapFrom_nodup (us : List types.Unit) (i : Nat) (m0 : String → Option Nat)
    (hnd : (us.map (fun u => u.Name)).Nodup) (t : Nat) (u : types.Unit)
    (ht : us[t]? = some u) : unitMapFrom i us m0 u.Name = some (i + t) := by
  induction us generalizing i m0 t with
  | nil => simp at ht
  | cons u0 rest ih =>
    simp only [List.map_cons, List.nodup_cons] at hnd
    simp only [unitMapFrom]
    cases t with
    | zero =>
      simp only [List.getElem?_cons_zero, Option.some.injEq] at ht
      subst ht
      rw [unitMapFrom_of_not_mem _ _ _ _ hnd.1]
      simp
    | succ t =>
      simp only [List.getElem?_cons_succ] at ht
      rw [ih _ _ hnd.2 t ht]
      congr 1
      omega

/-- The map built by lines 146-149 from the units of the destination. -/
theorem unitMap_facts (us : List types.Unit) :
    (∀ k j, unitMap us k = some j →
      j < us.length ∧ ∃ u, us[j]? = some u ∧ u.Name = k) ∧
    (∀ k, unitMap us k = none ↔ k ∉ us.map (fun u => u.Name)) ∧
    ((us.map (fun u => u.Name)).Nodup → ∀ t u, us[t]? = some u →
      unitMap us u.Name = some t) := by
  unfold unitMap
  refine ⟨?_, ?_, ?_⟩
  · intro k j h
    rcases unitMapFrom_some _ _ _ _ _ h with h1 | ⟨t, u, ht, hn, hj⟩
    · simp at h1
    · have hj' : j = t := by omega
      subst hj'
      exact ⟨(List.getElem?_eq_some_iff.mp ht).1, u, ht, hn⟩
  · intro k
    constructor
    · intro h hmem
      obtain ⟨j, hj⟩ := unitMapFrom_of_mem us 0 (fun _ => none) k hmem
      rw [h] at hj
      simp at hj
    · intro h
      rw [unitMapFrom_of_not_mem _ _ _ _ h]
  · intro hnd t u ht
    simpa using unitMapFrom_nodup us 0 (fun _ => none) hnd t u ht

/-! ### The generated unit and the merge into an existing unit -/

theorem mountUnitFromFS_some (lib : Lib) (fs : Filesystem) (p : String)
    (hp : fs.Path = some p) :
    mountUnitFromFS lib fs =
      some { Name := unitName lib p, Enabled := some true,
             Contents := some (mountUnitTemplate fs), Dropins := [], Mask := none } := by
  simp [mountUnitFromFS, hp, unitName]

theorem keeps_refl (u : types.Unit) : keeps u u :=
  ⟨rfl, rfl, rfl, fun _ => rfl, fun _ => rfl⟩

theorem keeps_trans {u v w : types.Unit} (h1 : keeps u v) (h2 : keeps v w) : keeps u w := by
  obtain ⟨a1, a2, a3, a4, a5⟩ := h1
  obtain ⟨b1, b2, b3, b4, b5⟩ := h2
  refine ⟨b1.trans a1, b2.trans a2, b3.trans a3, ?_, ?_⟩
  · intro h
    have hv : v.Contents ≠ none := by rw [a4 h]; exact h
    rw [b4 hv, a4 h]
  · intro h
    have hv : v.Enabled ≠ none := by rw [a5 h]; exact h
    rw [b5 hv, a5 h]

theorem fillUnit_fst (f up : path.ContextPath) (nu u : types.Unit) (ts : TranslationSet) :
    (fillUnit f up nu u ts).1 =
      { u with
        Contents := if u.Contents = none then nu.Contents else u.Contents
        Enabled := if u.Enabled = none then nu.Enabled else u.Enabled } := by
  unfold fillUnit
  by_cases hc : u.Contents = none <;> by_cases he : u.Enabled = none <;> simp [hc, he]

theorem fillUnit_entries (f up : path.ContextPath) (nu u : types.Unit) (ts : TranslationSet) :
    (fillUnit f up nu u ts).2.Entries =
      ts.Entries ++
        ((if u.Contents = none then
            [Entry.translation f (up.Append [path.Segment.field "contents"])] else []) ++
          (if u.Enabled = none then
            [Entry.translation f (up.Append [path.Segment.field "enabled"])] else [])) := by
  unfold fillUnit
  by_cases hc : u.Contents = none <;> by_cases he : u.Enabled = none <;>
    simp [hc, he, TranslationSet.AddTranslation]

theorem fillUnit_keeps (f up : path.ContextPath) (nu u : types.Unit) (ts : TranslationSet) :
    keeps u (fillUnit f up nu u ts).1 := by
  rw [fillUnit_fst]
  refine ⟨rfl, rfl, rfl, ?_, ?_⟩
  · intro h; simp [h]
  · intro h; simp [h]

/-! ### One iteration -/

/-- The three ways in which an iteration returns: the filesystem is not flagged, or
it is flagged and its unit name is in the map, or it is flagged and its unit name
is not in the map. -/
theorem step_cases {I P S : Type} (lib : Lib) (m : String → Option Nat) (i : Nat)
    (fs : Filesystem) (ret : types.Config I P S) (ts : TranslationSet)
    (r : types.Config I P S × TranslationSet)
    (h : addMountUnitsStep lib m i fs ret ts = some r) :
    (fs.WithMountUnit ≠ some true ∧ r = (ret, ts)) ∨
    (fs.WithMountUnit = some true ∧ ∃ p nu, fs.Path = some p ∧
      mountUnitFromFS lib fs = some nu ∧
      ((∃ j u, m (unitName lib p) = some j ∧ ret.Systemd.Units[j]? = some u ∧
          r = (setUnits ret
                (ret.Systemd.Units.set j (fillUnit (flagPath i) (unitPath j) nu u ts).1),
               (fillUnit (flagPath i) (unitPath j) nu u ts).2)) ∨
        (m (unitName lib p) = none ∧
          r = (setUnits ret (ret.Systemd.Units ++ [nu]),
               ts.AddFromCommonSource (flagPath i)
                 (unitPath ret.Systemd.Units.length) nu)))) := by
  unfold addMountUnitsStep at h
  split at h
  · rename_i hw
    exact Or.inl ⟨by simp [hw], by simpa using h.symm⟩
  · rename_i hw
    exact Or.inl ⟨by simp [hw], by simpa using h.symm⟩
  · rename_i hw
    refine Or.inr ⟨hw, ?_⟩
    split at h
    · rename_i nu p hnu hp
      refine ⟨p, nu, hp, hnu, ?_⟩
      split at h
      · rename_i j hj
        split at h
        · simp at h
        · rename_i u hu
          exact Or.inl ⟨j, u, hj, hu, by simpa using h.symm⟩
      · rename_i hj
        exact Or.inr ⟨hj, by simpa using h.symm⟩
    · simp at h

/-- An iteration returns when a flagged filesystem has a path and the indices of
the map are indices of the unit list. -/
theorem step_total {I P S : Type} (lib : Lib) (m : String → Option Nat) (i : Nat)
    (fs : Filesystem) (ret : types.Config I P S) (ts : TranslationSet)
    (hp : fs.WithMountUnit = some true → fs.Path ≠ none)
    (hm : ∀ k j, m k = some j → j < ret.Systemd.Units.length) :
    ∃ r, addMountUnitsStep lib m i fs ret ts = some r := by
  unfold addMountUnitsStep
  split
  · exact ⟨_, rfl⟩
  · exact ⟨_, rfl⟩
  · rename_i hw
    obtain ⟨p, hpp⟩ := Option.ne_none_iff_exists'.mp (hp hw)
    rw [mountUnitFromFS_some lib fs p hpp, hpp]
    simp only
    cases hj : m (lib.UnitNamePathEscape p ++ ".mount") with
    | none => exact ⟨_, rfl⟩
    | some j =>
      have hlt := hm _ _ hj
      simp only
      rw [List.getElem?_eq_getElem hlt]
      exact ⟨_, rfl⟩

/-! ### The loop -/

theorem loop_invariant {I P S : Type} (lib : Lib) (m : String → Option Nat)
    (Inv : Nat → types.Config I P S → TranslationSet → Prop)
    (fss : List Filesystem) (i : Nat) (ret : types.Config I P S) (ts : TranslationSet)
    (hstep : ∀ k fs ret1 ts1, fss[k]? = some fs → Inv (i + k) ret1 ts1 →
      ∃ r, addMountUnitsStep lib m (i + k) fs ret1 ts1 = some r ∧ Inv (i + k + 1) r.1 r.2)
    (h0 : Inv i ret ts) :
    ∃ r, addMountUnitsLoop lib m i fss ret ts = some r ∧ Inv (i + fss.length) r.1 r.2 := by
  induction fss generalizing i ret ts with
  | nil => exact ⟨(ret, ts), rfl, by simpa using h0⟩
  | cons fs rest ih =>
    obtain ⟨r1, hr1, hinv1⟩ := hstep 0 fs ret ts (by simp) (by simpa using h0)
    simp only [Nat.add_zero] at hr1 hinv1
    have hstep' : ∀ k fs' ret1 ts1, rest[k]? = some fs' → Inv (i + 1 + k) ret1 ts1 →
        ∃ r, addMountUnitsStep lib m (i + 1 + k) fs' ret1 ts1 = some r ∧
          Inv (i + 1 + k + 1) r.1 r.2 := by
      intro k fs' ret1 ts1 hk hinv
      have e : i + 1 + k = i + (k + 1) := by omega
      rw [e] at hinv ⊢
      exact hstep (k + 1) fs' ret1 ts1 (by simpa using hk) hinv
    obtain ⟨r, hr, hinv⟩ := ih (i + 1) r1.1 r1.2 hstep' hinv1
    refine ⟨r, ?_, ?_⟩
    · simp only [addMountUnitsLoop, hr1]
      exact hr
    · have e : i + (fs :: rest).length = i + 1 + rest.length := by
        simp only [List.length_cons]; omega
      rw [e]
      exact hinv

theorem addMountUnits_eq_loop {I P S : Type} (lib : Lib) (c : Config)
    (ret : types.Config I P S) :
    addMountUnits lib c ret =
      addMountUnitsLoop lib (unitMap ret.Systemd.Units) 0
        c.Storage.Filesystems ret (translate.NewTranslationSet "yaml" "json") := by
  unfold addMountUnits
  by_cases h : c.Storage.Filesystems.length = 0
  · have h' : c.Storage.Filesystems = [] := List.length_eq_zero.mp h
    simp [h', addMountUnitsLoop]
  · simp [h]

theorem loop_snoc {I P S : Type} (lib : Lib) (m : String → Option Nat)
    (l : List Filesystem) (fs : Filesystem) (i : Nat) (ret : types.Config I P S)
    (ts : TranslationSet) :
    addMountUnitsLoop lib m i (l ++ [fs]) ret ts =
      match addMountUnitsLoop lib m i l ret ts with
      | none => none
      | some r => addMountUnitsStep lib m (i + l.length) fs r.1 r.2 := by
  induction l generalizing i ret ts with
  | nil =>
    simp only [List.nil_append, addMountUnitsLoop, List.length_nil, Nat.add_zero]
    cases addMountUnitsStep lib m i fs ret ts <;> rfl
  | cons a rest ih =>
    show addMountUnitsLoop lib m i (a :: (rest ++ [fs])) ret ts = _
    simp only [addMountUnitsLoop, List.length_cons]
    cases addMountUnitsStep lib m i a ret ts with
    | none => rfl
    | some r1 =>
      simp only
      rw [ih]
      have e : i + 1 + rest.length = i + (rest.length + 1) := by omega
      rw [e]

theorem reached_succ {I P S : Type} {lib : Lib} {fss : List Filesystem}
    {ret0 ret : types.Config I P S} {k : Nat} {ts : TranslationSet} {fs : Filesystem}
    {r : types.Config I P S × TranslationSet}
    (hreach : addMountUnitsLoop lib (unitMap ret0.Systemd.Units) 0 (fss.take k) ret0
      (translate.NewTranslationSet "yaml" "json") = some (ret, ts))
    (hk : fss[k]? = some fs)
    (hstep : addMountUnitsStep lib (unitMap ret0.Systemd.Units) k fs ret ts = some r) :
    addMountUnitsLoop lib (unitMap ret0.Systemd.Units) 0 (fss.take (k + 1)) ret0
      (translate.NewTranslationSet "yaml" "json") = some r := by
  have hkl : k ≤ fss.length := Nat.le_of_lt (List.getElem?_eq_some_iff.mp hk).1
  rw [List.take_succ, hk, Option.toList_some, loop_snoc, hreach]
  simp only [List.length_take, Nat.min_eq_left hkl, Nat.zero_add]
  exact hstep

/-! ### Paths and entry lists -/

theorem flagPath_inj {a b : Nat} (h : flagPath a = flagPath b) : a = b := by
  simpa [flagPath, path.New] using h

theorem unitPath_inj {a b : Nat} (h : unitPath a = unitPath b) : a = b := by
  simpa [unitPath, path.New] using h

theorem unitFieldPath_inj {a b : Nat} {f g : String}
    (h : unitFieldPath a f = unitFieldPath b g) : a = b ∧ f = g := by
  simpa [unitFieldPath, unitPath, path.New, path.ContextPath.Append] using h

theorem translationTos_append {V : Type} (a b : List (Entry V)) :
    translationTos (a ++ b) = translationTos a ++ translationTos b := by
  induction a with
  | nil => rfl
  | cons e rest ih => cases e <;> simp [translationTos, ih]

theorem commonTos_append {V : Type} (a b : List (Entry V)) :
    commonTos (a ++ b) = commonTos a ++ commonTos b := by
  induction a with
  | nil => rfl
  | cons e rest ih => cases e <;> simp [commonTos, ih]

theorem filter_take_succ (q : Filesystem → Bool) (fss : List Filesystem) (k : Nat)
    (fs : Filesystem) (h : fss[k]? = some fs) :
    (fss.take (k + 1)).filter q = (fss.take k).filter q ++ (if q fs then [fs] else []) := by
  rw [List.take_succ, h]
  by_cases hq : q fs <;> simp [hq]

theorem appendsUnit_iff (lib : Lib) (us : List types.Unit) (fs : Filesystem) :
    appendsUnit lib us fs = true ↔
      fs.WithMountUnit = some true ∧
        ∃ p, fs.Path = some p ∧ unitMap us (unitName lib p) = none := by
  unfold appendsUnit flagged
  cases hp : fs.Path with
  | none => simp
  | some p =>
    simp only [Bool.and_eq_true, beq_iff_eq, Bool.not_eq_true', Option.some.injEq,
      exists_eq_left']
    rw [(unitMap_facts us).2.1]
    simp

/-! ### The invariant through one iteration -/

theorem inv_skip {I P S : Type} {lib : Lib} {fss : List Filesystem}
    {ret0 ret : types.Config I P S} {k : Nat} {ts : TranslationSet} {fs : Filesystem}
    (h : MountInv lib fss ret0 k ret ts) (hk : fss[k]? = some fs)
    (hw : fs.WithMountUnit ≠ some true)
    (hstep : addMountUnitsStep lib (unitMap ret0.Systemd.Units) k fs ret ts
      = some (ret, ts)) :
    MountInv lib fss ret0 (k + 1) ret ts := by
  have hq : appendsUnit lib ret0.Systemd.Units fs = false := by
    cases hq : appendsUnit lib ret0.Systemd.Units fs with
    | false => rfl
    | true => exact absurd ((appendsUnit_iff _ _ _).mp hq).1 hw
  have hfs : ∀ t fs1, t < k + 1 → fss[t]? = some fs1 → fs1.WithMountUnit = some true →
      t < k := by
    intro t fs1 ht hfs1 hw1
    rcases Nat.lt_succ_iff_lt_or_eq.mp ht with h1 | h1
    · exact h1
    · subst h1
      rw [hk] at hfs1
      exact absurd hw1 (by rw [← Option.some.inj hfs1]; exact hw)
  refine
    { len := h.len, frame := h.frame, other := h.other, appended := ?_,
      transNodup := h.transNodup, commonNodup := h.commonNodup, transTo := h.transTo,
      commonTo := h.commonTo, sources := ?_, common := ?_, untouched := ?_,
      reached := reached_succ h.reached hk hstep, every := ?_ }
  · rw [filter_take_succ _ _ _ _ hk, hq]
    simpa using h.appended
  · intro e he
    obtain ⟨t, fs1, ht, h1, h2, h3⟩ := h.sources e he
    exact ⟨t, fs1, Nat.lt_succ_of_lt ht, h1, h2, h3⟩
  · intro t fs1 nu ht hfs1 hq1 hnu
    exact h.common t fs1 nu (hfs t fs1 ht hfs1 ((appendsUnit_iff _ _ _).mp hq1).1) hfs1 hq1 hnu
  · intro j hj hno
    exact h.untouched j hj (fun t fs1 p ht => hno t fs1 p (Nat.lt_succ_of_lt ht))
  · intro t fs1 p j before ub ht hfs1 hw1 hp hj hb hub
    exact h.every t fs1 p j before ub (hfs t fs1 ht hfs1 hw1) hfs1 hw1 hp hj hb hub

theorem setUnits_units {I P S : Type} (ret : types.Config I P S) (us : List types.Unit) :
    (setUnits ret us).Systemd.Units = us := rfl

theorem entries_addFromCommonSource (ts : TranslationSet) (a b : path.ContextPath)
    (v : types.Unit) :
    (ts.AddFromCommonSource a b v).Entries = ts.Entries ++ [Entry.commonSource a b v] := rfl

theorem appended_length {I P S : Type} {lib : Lib} {fss : List Filesystem}
    {ret0 ret : types.Config I P S} {k : Nat} {ts : TranslationSet}
    (h : MountInv lib fss ret0 k ret ts) :
    ret0.Systemd.Units.length +
        ((fss.take k).filter (appendsUnit lib ret0.Systemd.Units)).length =
      ret.Systemd.Units.length := by
  have h1 := congrArg List.length h.appended
  simp only [List.length_map, List.length_drop] at h1
  have h2 := h.len
  omega

theorem inv_append {I P S : Type} {lib : Lib} {fss : List Filesystem}
    {ret0 ret : types.Config I P S} {k : Nat} {ts : TranslationSet} {fs : Filesystem}
    {p : String} {nu : types.Unit}
    (h : MountInv lib fss ret0 k ret ts) (hk : fss[k]? = some fs)
    (hw : fs.WithMountUnit = some true) (hp : fs.Path = some p)
    (hnu : mountUnitFromFS lib fs = some nu)
    (hj : unitMap ret0.Systemd.Units (unitName lib p) = none)
    (hstep : addMountUnitsStep lib (unitMap ret0.Systemd.Units) k fs ret ts
      = some (setUnits ret (ret.Systemd.Units ++ [nu]),
          ts.AddFromCommonSource (flagPath k) (unitPath ret.Systemd.Units.length) nu)) :
    MountInv lib fss ret0 (k + 1) (setUnits ret (ret.Systemd.Units ++ [nu]))
      (ts.AddFromCommonSource (flagPath k) (unitPath ret.Systemd.Units.length) nu) := by
  have hq : appendsUnit lib ret0.Systemd.Units fs = true :=
    (appendsUnit_iff _ _ _).mpr ⟨hw, p, hp, hj⟩
  have hlook : ∀ (j : Nat) (u : types.Unit), ret.Systemd.Units[j]? = some u →
      (ret.Systemd.Units ++ [nu])[j]? = some u := by
    intro j u hu
    rw [List.getElem?_append_left (List.getElem?_eq_some_iff.mp hu).1]
    exact hu
  have hlen := appended_length h
  refine
    { len := ?_, frame := ?_, other := h.other, appended := ?_,
      transNodup := ?_, commonNodup := ?_, transTo := ?_,
      commonTo := ?_, sources := ?_, common := ?_, untouched := ?_,
      reached := reached_succ h.reached hk hstep, every := ?_ }
  · rw [setUnits_units, List.length_append]
    exact Nat.le_trans h.len (Nat.le_add_right _ _)
  · intro j u hu
    obtain ⟨u1, hu1, hkp⟩ := h.frame j u hu
    exact ⟨u1, by rw [setUnits_units]; exact hlook j u1 hu1, hkp⟩
  · rw [setUnits_units, List.drop_append_of_le_length h.len, filter_take_succ _ _ _ _ hk, hq]
    simp only [List.map_append, h.appended, if_true, List.map_cons, List.map_nil, hnu]
  · rw [entries_addFromCommonSource, translationTos_append]
    simpa [translationTos] using h.transNodup
  · rw [entries_addFromCommonSource, commonTos_append]
    simp only [commonTos]
    rw [List.nodup_append]
    refine ⟨h.commonNodup, by simp, ?_⟩
    intro q hq1 hq2
    simp only [List.mem_singleton] at hq2
    obtain ⟨j, _, hjl, hjp⟩ := h.commonTo q hq1
    rw [hq2] at hjp
    have := unitPath_inj hjp
    omega
  · intro q hq1
    rw [entries_addFromCommonSource, translationTos_append] at hq1
    simp only [translationTos, List.append_nil] at hq1
    obtain ⟨j, hjn, hcase⟩ := h.transTo q hq1
    refine ⟨j, hjn, ?_⟩
    rw [setUnits_units]
    rcases hcase with ⟨e1, u, hu, hne⟩ | ⟨e1, u, hu, hne⟩
    · exact Or.inl ⟨e1, u, hlook j u hu, hne⟩
    · exact Or.inr ⟨e1, u, hlook j u hu, hne⟩
  · intro q hq1
    rw [entries_addFromCommonSource, commonTos_append] at hq1
    simp only [commonTos, List.mem_append, List.mem_singleton] at hq1
    rw [setUnits_units, List.length_append]
    rcases hq1 with hq1 | hq1
    · obtain ⟨j, h1, h2, h3⟩ := h.commonTo q hq1
      exact ⟨j, h1, Nat.lt_of_lt_of_le h2 (Nat.le_add_right _ _), h3⟩
    · exact ⟨ret.Systemd.Units.length, h.len, by simp, hq1⟩
  · intro e he
    rw [entries_addFromCommonSource, List.mem_append, List.mem_singleton] at he
    rcases he with he | he
    · obtain ⟨t, fs1, ht, h1, h2, h3⟩ := h.sources e he
      exact ⟨t, fs1, Nat.lt_succ_of_lt ht, h1, h2, h3⟩
    · exact ⟨k, fs, Nat.lt_succ_self k, hk, hw, by rw [he]; rfl⟩
  · intro t fs1 nu1 ht hfs1 hq1 hnu1
    rw [entries_addFromCommonSource, List.mem_append, List.mem_singleton]
    rw [setUnits_units]
    rcases Nat.lt_succ_iff_lt_or_eq.mp ht with h1 | h1
    · obtain ⟨hc1, hc2⟩ := h.common t fs1 nu1 h1 hfs1 hq1 hnu1
      exact ⟨hlook _ _ hc1, Or.inl hc2⟩
    · subst h1
      rw [hk] at hfs1
      have e1 : fs = fs1 := Option.some.inj hfs1
      subst e1
      rw [hnu] at hnu1
      have e2 : nu = nu1 := Option.some.inj hnu1
      subst e2
      rw [hlen]
      exact ⟨by simp, Or.inr rfl⟩
  · intro j hjn hno
    rw [setUnits_units, List.getElem?_append_left (Nat.lt_of_lt_of_le hjn h.len)]
    exact h.untouched j hjn (fun t fs1 p1 ht => hno t fs1 p1 (Nat.lt_succ_of_lt ht))
  · intro t fs1 p1 j before ub ht hfs1 hw1 hp1 hj1 hb hub
    rcases Nat.lt_succ_iff_lt_or_eq.mp ht with h1 | h1
    · obtain ⟨u1, hu1, hc, he, hmc, hme⟩ :=
        h.every t fs1 p1 j before ub h1 hfs1 hw1 hp1 hj1 hb hub
      refine ⟨u1, by rw [setUnits_units]; exact hlook j u1 hu1, hc, he, ?_, ?_⟩
      · rw [← hmc, entries_addFromCommonSource]
        simp
      · rw [← hme, entries_addFromCommonSource]
        simp
    · subst h1
      rw [hk] at hfs1
      have e1 : fs = fs1 := Option.some.inj hfs1
      subst e1
      rw [hp] at hp1
      have e2 : p = p1 := Option.some.inj hp1
      subst e2
      rw [hj] at hj1
      simp at hj1

theorem translationTos_fill (c : Prop) [Decidable c] (f q : path.ContextPath) :
    translationTos (V := types.Unit) (if c then [Entry.translation f q] else []) =
      if c then [q] else [] := by
  by_cases hc : c <;> simp [hc, translationTos]

theorem commonTos_fill (c : Prop) [Decidable c] (f q : path.ContextPath) :
    commonTos (V := types.Unit) (if c then [Entry.translation f q] else []) = [] := by
  by_cases hc : c <;> simp [hc, commonTos]

theorem inv_merge {I P S : Type} {lib : Lib} {fss : List Filesystem}
    {ret0 ret : types.Config I P S} {k : Nat} {ts : TranslationSet} {fs : Filesystem}
    {p : String} {nu u0 : types.Unit} {j0 : Nat}
    (h : MountInv lib fss ret0 k ret ts) (hk : fss[k]? = some fs)
    (hw : fs.WithMountUnit = some true) (hp : fs.Path = some p)
    (hnu : mountUnitFromFS lib fs = some nu)
    (hj : unitMap ret0.Systemd.Units (unitName lib p) = some j0)
    (hu0 : ret.Systemd.Units[j0]? = some u0)
    (hstep : addMountUnitsStep lib (unitMap ret0.Systemd.Units) k fs ret ts
      = some (setUnits ret
          (ret.Systemd.Units.set j0 (fillUnit (flagPath k) (unitPath j0) nu u0 ts).1),
        (fillUnit (flagPath k) (unitPath j0) nu u0 ts).2)) :
    MountInv lib fss ret0 (k + 1)
      (setUnits ret
        (ret.Systemd.Units.set j0 (fillUnit (flagPath k) (unitPath j0) nu u0 ts).1))
      (fillUnit (flagPath k) (unitPath j0) nu u0 ts).2 := by
  have hq : appendsUnit lib ret0.Systemd.Units fs = false := by
    cases hq : appendsUnit lib ret0.Systemd.Units fs with
    | false => rfl
    | true =>
      obtain ⟨_, p1, hp1, hnone⟩ := (appendsUnit_iff _ _ _).mp hq
      rw [hp] at hp1
      rw [← Option.some.inj hp1, hj] at hnone
      simp at hnone
  have hj0n : j0 < ret0.Systemd.Units.length := ((unitMap_facts _).1 _ _ hj).1
  have hj0l : j0 < ret.Systemd.Units.length := (List.getElem?_eq_some_iff.mp hu0).1
  have hnuC : nu.Contents = some (mountUnitTemplate fs) := by
    rw [mountUnitFromFS_some lib fs p hp] at hnu
    rw [← Option.some.inj hnu]
  have hnuE : nu.Enabled = some true := by
    rw [mountUnitFromFS_some lib fs p hp] at hnu
    rw [← Option.some.inj hnu]
  have hkeep : ∀ (j : Nat) (u : types.Unit), ret.Systemd.Units[j]? = some u →
      ∃ u1, (ret.Systemd.Units.set j0
          (fillUnit (flagPath k) (unitPath j0) nu u0 ts).1)[j]? = some u1 ∧ keeps u u1 := by
    intro j u hu
    by_cases hjj : j0 = j
    · subst hjj
      rw [hu0] at hu
      rw [← Option.some.inj hu]
      exact ⟨_, List.getElem?_set_self hj0l, fillUnit_keeps _ _ _ _ _⟩
    · exact ⟨u, by rw [List.getElem?_set_ne hjj]; exact hu, keeps_refl u⟩
  have hnew : ∀ e ∈
      ((if u0.Contents = none then
          [Entry.translation (V := types.Unit) (flagPath k)
            ((unitPath j0).Append [path.Segment.field "contents"])] else []) ++
        (if u0.Enabled = none then
          [Entry.translation (flagPath k)
            ((unitPath j0).Append [path.Segment.field "enabled"])] else [])),
      e.From = flagPath k := by
    intro e he
    rcases List.mem_append.mp he with h1 | h1
    · by_cases hc : u0.Contents = none
      · simp only [hc, if_true, List.mem_singleton] at h1
        rw [h1]; rfl
      · simp [hc] at h1
    · by_cases hen : u0.Enabled = none
      · simp only [hen, if_true, List.mem_singleton] at h1
        rw [h1]; rfl
      · simp [hen] at h1
  have hold : ∀ (t : Nat) (q : path.ContextPath), t < k →
      (Entry.translation (V := types.Unit) (flagPath t) q ∈
          (fillUnit (flagPath k) (unitPath j0) nu u0 ts).2.Entries ↔
        Entry.translation (flagPath t) q ∈ ts.Entries) := by
    intro t q ht
    rw [fillUnit_entries, List.mem_append]
    constructor
    · rintro (h1 | h1)
      · exact h1
      · have := flagPath_inj (hnew _ h1)
        omega
    · exact Or.inl
  have hfresh : ∀ q : path.ContextPath,
      Entry.translation (V := types.Unit) (flagPath k) q ∉ ts.Entries := by
    intro q hmem
    obtain ⟨t, _, ht, _, _, hfrom⟩ := h.sources _ hmem
    have := flagPath_inj hfrom
    omega
  refine
    { len := ?_, frame := ?_, other := h.other, appended := ?_,
      transNodup := ?_, commonNodup := ?_, transTo := ?_,
      commonTo := ?_, sources := ?_, common := ?_, untouched := ?_,
      reached := reached_succ h.reached hk hstep, every := ?_ }
  · rw [setUnits_units, List.length_set]
    exact h.len
  · intro j u hu
    obtain ⟨u1, hu1, hk1⟩ := h.frame j u hu
    obtain ⟨u2, hu2, hk2⟩ := hkeep j u1 hu1
    exact ⟨u2, by rw [setUnits_units]; exact hu2, keeps_trans hk1 hk2⟩
  · rw [setUnits_units, List.drop_set_of_lt _ _ hj0n, filter_take_succ _ _ _ _ hk, hq]
    simpa using h.appended
  · rw [fillUnit_entries, translationTos_append, translationTos_append,
      translationTos_fill, translationTos_fill, List.nodup_append]
    have hcont : u0.Contents = none →
        (unitPath j0).Append [path.Segment.field "contents"]
          ∉ translationTos ts.Entries := by
      intro hc hmem
      obtain ⟨j, _, hcase⟩ := h.transTo _ hmem
      rcases hcase with ⟨e1, u, hu, hne⟩ | ⟨e1, u, hu, hne⟩
      · have hjj := (unitFieldPath_inj (a := j0) (f := "contents") e1).1
        subst hjj
        rw [hu0] at hu
        rw [← Option.some.inj hu] at hne
        exact hne hc
      · have := (unitFieldPath_inj (a := j0) (f := "contents") e1).2
        simp at this
    have hena : u0.Enabled = none →
        (unitPath j0).Append [path.Segment.field "enabled"]
          ∉ translationTos ts.Entries := by
      intro hc hmem
      obtain ⟨j, _, hcase⟩ := h.transTo _ hmem
      rcases hcase with ⟨e1, u, hu, hne⟩ | ⟨e1, u, hu, hne⟩
      · have := (unitFieldPath_inj (a := j0) (f := "enabled") e1).2
        simp at this
      · have hjj := (unitFieldPath_inj (a := j0) (f := "enabled") e1).1
        subst hjj
        rw [hu0] at hu
        rw [← Option.some.inj hu] at hne
        exact hne hc
    have hdiff : (unitPath j0).Append [path.Segment.field "contents"] ≠
        (unitPath j0).Append [path.Segment.field "enabled"] := by
      intro e1
      have := (unitFieldPath_inj (a := j0) (b := j0) (f := "contents") (g := "enabled") e1).2
      simp at this
    refine ⟨h.transNodup, ?_, ?_⟩
    · by_cases hc : u0.Contents = none <;> by_cases hen : u0.Enabled = none <;>
        simp [hc, hen, hdiff]
    · intro q hq1 hq2
      by_cases hc : u0.Contents = none <;> by_cases hen : u0.Enabled = none <;>
        simp [hc, hen] at hq2
      · rcases hq2 with hq2 | hq2
        · exact hcont hc (hq2 ▸ hq1)
        · exact hena hen (hq2 ▸ hq1)
      · exact hcont hc (hq2 ▸ hq1)
      · exact hena hen (hq2 ▸ hq1)
  · rw [fillUnit_entries, commonTos_append, commonTos_append, commonTos_fill, commonTos_fill]
    simpa using h.commonNodup
  · intro q hq1
    rw [fillUnit_entries, translationTos_append, translationTos_append,
      translationTos_fill, translationTos_fill, List.mem_append, List.mem_append] at hq1
    rw [setUnits_units]
    have hfill := fillUnit_fst (flagPath k) (unitPath j0) nu u0 ts
    rcases hq1 with hq1 | hq1 | hq1
    · obtain ⟨j, hjn, hcase⟩ := h.transTo q hq1
      refine ⟨j, hjn, ?_⟩
      rcases hcase with ⟨e1, u, hu, hne⟩ | ⟨e1, u, hu, hne⟩
      · obtain ⟨u1, hu1, hk1⟩ := hkeep j u hu
        exact Or.inl ⟨e1, u1, hu1, by rw [hk1.2.2.2.1 hne]; exact hne⟩
      · obtain ⟨u1, hu1, hk1⟩ := hkeep j u hu
        exact Or.inr ⟨e1, u1, hu1, by rw [hk1.2.2.2.2 hne]; exact hne⟩
    · by_cases hc : u0.Contents = none
      · simp only [hc, if_true, List.mem_singleton] at hq1
        refine ⟨j0, hj0n, Or.inl ⟨hq1, _, List.getElem?_set_self hj0l, ?_⟩⟩
        rw [hfill]
        simp [hc, hnuC]
      · simp [hc] at hq1
    · by_cases hen : u0.Enabled = none
      · simp only [hen, if_true, List.mem_singleton] at hq1
        refine ⟨j0, hj0n, Or.inr ⟨hq1, _, List.getElem?_set_self hj0l, ?_⟩⟩
        rw [hfill]
        simp [hen, hnuE]
      · simp [hen] at hq1
  · intro q hq1
    rw [fillUnit_entries, commonTos_append, commonTos_append, commonTos_fill,
      commonTos_fill] at hq1
    simp only [List.append_nil] at hq1
    rw [setUnits_units, List.length_set]
    exact h.commonTo q hq1
  · intro e he
    rw [fillUnit_entries, List.mem_append] at he
    rcases he with he | he
    · obtain ⟨t, fs1, ht, h1, h2, h3⟩ := h.sources e he
      exact ⟨t, fs1, Nat.lt_succ_of_lt ht, h1, h2, h3⟩
    · exact ⟨k, fs, Nat.lt_succ_self k, hk, hw, hnew e he⟩
  · intro t fs1 nu1 ht hfs1 hq1 hnu1
    rw [fillUnit_entries, List.mem_append]
    rw [setUnits_units]
    rcases Nat.lt_succ_iff_lt_or_eq.mp ht with h1 | h1
    · obtain ⟨hc1, hc2⟩ := h.common t fs1 nu1 h1 hfs1 hq1 hnu1
      refine ⟨?_, Or.inl hc2⟩
      rw [List.getElem?_set_ne (by omega)]
      exact hc1
    · subst h1
      rw [hk] at hfs1
      rw [← Option.some.inj hfs1, hq] at hq1
      simp at hq1
  · intro j hjn hno
    have hne : j0 ≠ j := by
      intro e1
      exact hno k fs p (Nat.lt_succ_self k) hk hw hp (e1 ▸ hj)
    rw [setUnits_units, List.getElem?_set_ne hne]
    exact h.untouched j hjn (fun t fs1 p1 ht => hno t fs1 p1 (Nat.lt_succ_of_lt ht))
  · intro t fs1 p1 j before u ht hfs1 hw1 hp1 hj1 hb hu
    rw [setUnits_units]
    rcases Nat.lt_succ_iff_lt_or_eq.mp ht with h1 | h1
    · obtain ⟨u1, hu1, hc, he, hmc, hme⟩ :=
        h.every t fs1 p1 j before u h1 hfs1 hw1 hp1 hj1 hb hu
      obtain ⟨u2, hu2, hk2⟩ := hkeep j u1 hu1
      have hc1 : u1.Contents ≠ none := by
        rw [hc]
        by_cases hcc : u.Contents = none <;> simp [hcc]
      have he1 : u1.Enabled ≠ none := by
        rw [he]
        by_cases hcc : u.Enabled = none <;> simp [hcc]
      refine ⟨u2, hu2, by rw [hk2.2.2.2.1 hc1]; exact hc, by rw [hk2.2.2.2.2 he1]; exact he,
        ?_, ?_⟩
      · rw [hold t _ h1]; exact hmc
      · rw [hold t _ h1]; exact hme
    · subst h1
      rw [hk] at hfs1
      have e1 : fs = fs1 := Option.some.inj hfs1
      subst e1
      rw [hp] at hp1
      have e2 : p = p1 := Option.some.inj hp1
      subst e2
      rw [hj] at hj1
      have e3 : j0 = j := Option.some.inj hj1
      subst e3
      rw [h.reached] at hb
      have e5 : (ret, ts) = before := Option.some.inj hb
      subst e5
      rw [hu0] at hu
      have e4 : u0 = u := Option.some.inj hu
      subst e4
      refine ⟨_, List.getElem?_set_self hj0l, ?_, ?_, ?_, ?_⟩
      · rw [fillUnit_fst]
        simp [hnuC]
      · rw [fillUnit_fst]
        simp [hnuE]
      · rw [fillUnit_entries, List.mem_append]
        constructor
        · rintro (h1 | h1)
          · exact absurd h1 (hfresh _)
          · by_cases hc : u0.Contents = none
            · exact hc
            · by_cases hen : u0.Enabled = none <;>
                simp [hc, hen, unitFieldPath, path.ContextPath.Append] at h1
        · intro hc
          refine Or.inr ?_
          simp [hc, unitFieldPath]
      · rw [fillUnit_entries, List.mem_append]
        constructor
        · rintro (h1 | h1)
          · exact absurd h1 (hfresh _)
          · by_cases hen : u0.Enabled = none
            · exact hen
            · by_cases hc : u0.Contents = none <;>
                simp [hc, hen, unitFieldPath, path.ContextPath.Append] at h1
        · intro hen
          refine Or.inr ?_
          simp [hen, unitFieldPath]

/-! ### The whole call -/

theorem inv_start {I P S : Type} (lib : Lib) (fss : List Filesystem)
    (ret : types.Config I P S) :
    MountInv lib fss ret 0 ret (translate.NewTranslationSet "yaml" "json") := by
  refine
    { len := Nat.le_refl _, frame := fun j u hu => ⟨u, hu, keeps_refl u⟩,
      other := ⟨rfl, rfl, rfl⟩, appended := by simp,
      transNodup := by simp [NewTranslationSet, translationTos],
      commonNodup := by simp [NewTranslationSet, commonTos],
      transTo := by simp [NewTranslationSet, translationTos],
      commonTo := by simp [NewTranslationSet, commonTos],
      sources := by simp [NewTranslationSet],
      common := fun t _ _ ht => absurd ht (Nat.not_lt_zero t),
      untouched := fun _ _ _ => rfl,
      reached := rfl,
      every := fun t _ _ _ _ _ ht => absurd ht (Nat.not_lt_zero t) }

/-- The loop returns whenever every flagged filesystem has a path, and the state it
returns satisfies the invariant for the whole list of filesystems. -/
theorem loop_spec {I P S : Type} (lib : Lib) (fss : List Filesystem)
    (ret : types.Config I P S) (hpaths : flaggedHavePaths fss) :
    ∃ r, addMountUnitsLoop lib (unitMap ret.Systemd.Units) 0 fss ret
        (translate.NewTranslationSet "yaml" "json") = some r ∧
      MountInv lib fss ret fss.length r.1 r.2 := by
  have h := loop_invariant lib (unitMap ret.Systemd.Units)
    (fun k ret1 ts1 => MountInv lib fss ret k ret1 ts1) fss 0 ret
    (translate.NewTranslationSet "yaml" "json")
    (by
      intro k fs ret1 ts1 hk hinv
      simp only [Nat.zero_add] at hinv ⊢
      have hmem : fs ∈ fss := List.getElem?_mem hk
      obtain ⟨r, hr⟩ := step_total lib (unitMap ret.Systemd.Units) k fs ret1 ts1
        (hpaths fs hmem)
        (fun name j hj => Nat.lt_of_lt_of_le ((unitMap_facts _).1 name j hj).1 hinv.len)
      refine ⟨r, hr, ?_⟩
      rcases step_cases lib _ k fs ret1 ts1 r hr with
        ⟨hw, rfl⟩ | ⟨hw, p, nu, hp, hnu, ⟨j, u, hj, hu, rfl⟩ | ⟨hj, rfl⟩⟩
      · exact inv_skip hinv hk hw hr
      · exact inv_merge hinv hk hw hp hnu hj hu hr
      · exact inv_append hinv hk hw hp hnu hj hr)
    (inv_start lib fss ret)
  simpa using h

/-- The call returns whenever every flagged filesystem has a path, and the state it
returns satisfies the invariant of the loop for the whole list of filesystems. -/
theorem addMountUnits_spec {I P S : Type} (lib : Lib) (c : Config)
    (ret : types.Config I P S) (hpaths : flaggedHavePaths c.Storage.Filesystems) :
    ∃ r, addMountUnits lib c ret = some r ∧
      MountInv lib c.Storage.Filesystems ret c.Storage.Filesystems.length r.1 r.2 := by
  rw [addMountUnits_eq_loop]
  exact loop_spec lib c.Storage.Filesystems ret hpaths

/-- What `translateFileContents` records for the destination path json `source` when
`Inline` is present: after the entries of the nested walks, the identity entries for
`source` and `compression`, and last the entry from yaml `inline`. -/
theorem translateFileContents_entries_inline (lib : Lib) (tr : Translator)
    (frm : FileContents) (inline : String) (h : frm.Inline = some inline) :
    (translateFileContents lib tr frm).2.Entries =
      ((tr.Verification frm.Verification).2.map
            (Entry.Prepend (path.Segment.field "verification")) ++
          (tr.HTTPHeaders frm.HTTPHeaders).2.map
            (Entry.Prepend (path.Segment.field "httpHeaders"))) ++
        [identityEntry "source", identityEntry "compression",
          Entry.translation (path.New "yaml" [path.Segment.field "inline"])
            (path.New "json" [path.Segment.field "source"])] := by
  simp only [translateFileContents, h, TranslationSet.AddTranslation]
  rw [(entries_addIdentity _ _).1]
  simp only [TranslationSet.MergeP, TranslationSet.Merge, TranslationSet.Prefix,
    Translate, List.map_cons, List.map_nil, identityEntry, List.append_assoc,
    List.cons_append, List.nil_append]

/-- When `Inline` is absent, the destination `Source` is the source `Source` and no
entry recorded has the yaml path `inline` as its source. -/
theorem translateFileContents_no_inline (lib : Lib) (tr : Translator)
    (frm : FileContents) (h : frm.Inline = none) :
    (translateFileContents lib tr frm).1.Source = frm.Source ∧
    ∀ e ∈ (translateFileContents lib tr frm).2.Entries,
      e.From ≠ path.New "yaml" [path.Segment.field "inline"] := by
  refine ⟨by simp only [translateFileContents, h], ?_⟩
  intro e he
  simp only [translateFileContents, h] at he
  rw [(entries_addIdentity _ _).1] at he
  simp only [TranslationSet.MergeP, TranslationSet.Merge, TranslationSet.Prefix,
    Translate, List.map_cons, List.map_nil, List.mem_append, List.mem_map,
    List.mem_cons, List.mem_nil_iff, or_false] at he
  rcases he with (⟨e0, _, rfl⟩ | ⟨e0, _, rfl⟩) | rfl | rfl
  · intro hc
    have := (to_prepend_head (path.Segment.field "verification") e0).2
    rw [hc] at this
    simp [path.New] at this
  · intro hc
    have := (to_prepend_head (path.Segment.field "httpHeaders") e0).2
    rw [hc] at this
    simp [path.New] at this
  · simp [Entry.From, path.New]
  · simp [Entry.From, path.New]

/-- C4: after `addMountUnits`, every unit that was in the destination before the call
is at the same index with the same name, its contents and its enable flag have the
value they had where they were present, its drop-ins and mask are unchanged, and
the sections of the destination other than `Systemd.Units` are unchanged. -/
theorem addMountUnits_keeps_user_values {I P S : Type} (lib : Lib) (c : Config)
    (ret : types.Config I P S) (hpaths : flaggedHavePaths c.Storage.Filesystems) :
    ∃ r, addMountUnits lib c ret = some r ∧
      (∀ (j : Nat) (u : types.Unit), ret.Systemd.Units[j]? = some u →
        ∃ u1, r.1.Systemd.Units[j]? = some u1 ∧ u1.Name = u.Name ∧
          (u.Contents ≠ none → u1.Contents = u.Contents) ∧
          (u.Enabled ≠ none → u1.Enabled = u.Enabled) ∧
          u1.Dropins = u.Dropins ∧ u1.Mask = u.Mask) ∧
      r.1.Ignition = ret.Ignition ∧ r.1.Passwd = ret.Passwd ∧
      r.1.Storage = ret.Storage := by
  obtain ⟨r, hr, h⟩ := addMountUnits_spec lib c ret hpaths
  refine ⟨r, hr, ?_, h.other⟩
  intro j u hu
  obtain ⟨u1, hu1, k1, k2, k3, k4, k5⟩ := h.frame j u hu
  exact ⟨u1, hu1, k1, k4, k5, k2, k3⟩

theorem addMountUnits_keeps_user_values_sample :
    flaggedHavePaths (configOf [fsPlain, fsVar]).Storage.Filesystems ∧
    ∃ r, addMountUnits goLib (configOf [fsPlain, fsVar]) (retOf [userVarUnit]) = some r ∧
      (∀ (j : Nat) (u : types.Unit), (retOf [userVarUnit]).Systemd.Units[j]? = some u →
        ∃ u1, r.1.Systemd.Units[j]? = some u1 ∧ u1.Name = u.Name ∧
          (u.Contents ≠ none → u1.Contents = u.Contents) ∧
          (u.Enabled ≠ none → u1.Enabled = u.Enabled) ∧
          u1.Dropins = u.Dropins ∧ u1.Mask = u.Mask) ∧
      r.1.Ignition = (retOf [userVarUnit]).Ignition ∧
      r.1.Passwd = (retOf [userVarUnit]).Passwd ∧
      r.1.Storage = (retOf [userVarUnit]).Storage :=
  ⟨by unfold flaggedHavePaths; decide,
    addMountUnits_keeps_user_values goLib (configOf [fsPlain, fsVar]) (retOf [userVarUnit])
      (by unfold flaggedHavePaths; decide)⟩

/-- C5: the units after the original ones are, in the order of the filesystems, the
units that `mountUnitFromFS` generates for the flagged filesystems whose unit name
is not the name of an original unit; every entry of the set returned has as source
the flag of a flagged filesystem, so a filesystem that is not flagged contributes
no unit and no translation. -/
theorem addMountUnits_appends_in_order {I P S : Type} (lib : Lib) (c : Config)
    (ret : types.Config I P S) (hpaths : flaggedHavePaths c.Storage.Filesystems) :
    ∃ r, addMountUnits lib c ret = some r ∧
      ret.Systemd.Units.length ≤ r.1.Systemd.Units.length ∧
      (r.1.Systemd.Units.drop ret.Systemd.Units.length).map some =
        (c.Storage.Filesystems.filter (appendsUnit lib ret.Systemd.Units)).map
          (mountUnitFromFS lib) ∧
      ∀ e ∈ r.2.Entries, ∃ t fs, c.Storage.Filesystems[t]? = some fs ∧
        fs.WithMountUnit = some true ∧ e.From = flagPath t := by
  obtain ⟨r, hr, h⟩ := addMountUnits_spec lib c ret hpaths
  refine ⟨r, hr, h.len, ?_, ?_⟩
  · simpa using h.appended
  · intro e he
    obtain ⟨t, fs, _, h1, h2, h3⟩ := h.sources e he
    exact ⟨t, fs, h1, h2, h3⟩

theorem addMountUnits_appends_in_order_sample :
    flaggedHavePaths (configOf [fsPlain, fsVar]).Storage.Filesystems ∧
    ∃ r, addMountUnits goLib (configOf [fsPlain, fsVar]) (retOf []) = some r ∧
      (retOf []).Systemd.Units.length ≤ r.1.Systemd.Units.length ∧
      (r.1.Systemd.Units.drop (retOf []).Systemd.Units.length).map some =
        ((configOf [fsPlain, fsVar]).Storage.Filesystems.filter
          (appendsUnit goLib (retOf []).Systemd.Units)).map (mountUnitFromFS goLib) ∧
      ∀ e ∈ r.2.Entries, ∃ t fs, (configOf [fsPlain, fsVar]).Storage.Filesystems[t]? = some fs ∧
        fs.WithMountUnit = some true ∧ e.From = flagPath t :=
  ⟨by unfold flaggedHavePaths; decide,
    addMountUnits_appends_in_order goLib (configOf [fsPlain, fsVar]) (retOf [])
      (by unfold flaggedHavePaths; decide)⟩

/-- C10: in the set returned by one call of `addMountUnits`, no two `AddTranslation`
entries have the same destination path, no two `AddFromCommonSource` entries have
the same destination path, every `AddTranslation` destination is the contents or
the enabled field of a unit index below the original length of the unit list,
every `AddFromCommonSource` destination is a unit index at or above it, and so no
`AddTranslation` destination lies under an `AddFromCommonSource` destination. -/
theorem addMountUnits_destinations_disjoint {I P S : Type} (lib : Lib) (c : Config)
    (ret : types.Config I P S) (hpaths : flaggedHavePaths c.Storage.Filesystems) :
    ∃ r, addMountUnits lib c ret = some r ∧
      (translationTos r.2.Entries).Nodup ∧
      (commonTos r.2.Entries).Nodup ∧
      (∀ q ∈ translationTos r.2.Entries, ∃ j, j < ret.Systemd.Units.length ∧
        (q = unitFieldPath j "contents" ∨ q = unitFieldPath j "enabled")) ∧
      (∀ q ∈ commonTos r.2.Entries, ∃ j, ret.Systemd.Units.length ≤ j ∧ q = unitPath j) ∧
      (∀ q1 ∈ translationTos r.2.Entries, ∀ q2 ∈ commonTos r.2.Entries,
        ¬ q2.Path <+: q1.Path) := by
  obtain ⟨r, hr, h⟩ := addMountUnits_spec lib c ret hpaths
  have ht : ∀ q ∈ translationTos r.2.Entries, ∃ j, j < ret.Systemd.Units.length ∧
      (q = unitFieldPath j "contents" ∨ q = unitFieldPath j "enabled") := by
    intro q hq
    obtain ⟨j, hj, hcase⟩ := h.transTo q hq
    exact ⟨j, hj, hcase.imp (fun x => x.1) (fun x => x.1)⟩
  have hc : ∀ q ∈ commonTos r.2.Entries, ∃ j, ret.Systemd.Units.length ≤ j ∧
      q = unitPath j := by
    intro q hq
    obtain ⟨j, hj, _, hq2⟩ := h.commonTo q hq
    exact ⟨j, hj, hq2⟩
  refine ⟨r, hr, h.transNodup, h.commonNodup, ht, hc, ?_⟩
  intro q1 hq1 q2 hq2 hpre
  obtain ⟨j1, hj1, hcase⟩ := ht q1 hq1
  obtain ⟨j2, hj2, rfl⟩ := hc q2 hq2
  have hjj : j2 = j1 := by
    rcases hcase with rfl | rfl <;>
      simpa [unitFieldPath, unitPath, path.New, path.ContextPath.Append] using hpre
  omega

theorem addMountUnits_destinations_disjoint_sample :
    flaggedHavePaths (configOf [fsVar, fsVarAgain, fsPlain]).Storage.Filesystems ∧
    ∃ r, addMountUnits goLib (configOf [fsVar, fsVarAgain, fsPlain])
        (retOf [bareVarUnit]) = some r ∧
      (translationTos r.2.Entries).Nodup ∧
      (commonTos r.2.Entries).Nodup ∧
      (∀ q ∈ translationTos r.2.Entries, ∃ j, j < (retOf [bareVarUnit]).Systemd.Units.length ∧
        (q = unitFieldPath j "contents" ∨ q = unitFieldPath j "enabled")) ∧
      (∀ q ∈ commonTos r.2.Entries,
        ∃ j, (retOf [bareVarUnit]).Systemd.Units.length ≤ j ∧ q = unitPath j) ∧
      (∀ q1 ∈ translationTos r.2.Entries, ∀ q2 ∈ commonTos r.2.Entries,
        ¬ q2.Path <+: q1.Path) :=
  ⟨by unfold flaggedHavePaths; decide,
    addMountUnits_destinations_disjoint goLib (configOf [fsVar, fsVarAgain, fsPlain])
      (retOf [bareVarUnit]) (by unfold flaggedHavePaths; decide)⟩

set_option maxRecDepth 100000

theorem flaggedHavePaths_take (fss : List Filesystem) (i : Nat)
    (h : flaggedHavePaths fss) : flaggedHavePaths (fss.take i) :=
  fun fs hfs => h fs (List.mem_of_mem_take hfs)

/-- C2: a flagged filesystem at index `i` whose unit name is not the name of any unit
of the destination before the call gets a generated unit with that name,
`Enabled = true` and the rendered template as contents; the unit is at the index
equal to the length of the unit list when the loop reaches filesystem `i` (the
state `before`, after the first `i` filesystems), which is past the original
units, and `AddFromCommonSource` attributes it from the yaml path
`storage.filesystems.i.with_mount_unit` to the json path `systemd.units.<index>`. -/
theorem addMountUnits_appends_generated_unit {I P S : Type} (lib : Lib) (c : Config)
    (ret : types.Config I P S) (i : Nat) (fs : Filesystem) (p : String)
    (hpaths : flaggedHavePaths c.Storage.Filesystems)
    (hi : c.Storage.Filesystems[i]? = some fs) (hw : fs.WithMountUnit = some true)
    (hp : fs.Path = some p)
    (hname : ∀ u ∈ ret.Systemd.Units, u.Name ≠ lib.UnitNamePathEscape p ++ ".mount") :
    ∃ r before, addMountUnits lib c ret = some r ∧
      addMountUnitsLoop lib (unitMap ret.Systemd.Units) 0 (c.Storage.Filesystems.take i)
        ret (NewTranslationSet "yaml" "json") = some before ∧
      ret.Systemd.Units.length ≤ before.1.Systemd.Units.length ∧
      r.1.Systemd.Units[before.1.Systemd.Units.length]? =
        some { Name := lib.UnitNamePathEscape p ++ ".mount", Enabled := some true,
               Contents := some (mountUnitTemplate fs), Dropins := [], Mask := none } ∧
      Entry.commonSource (flagPath i) (unitPath before.1.Systemd.Units.length)
          { Name := lib.UnitNamePathEscape p ++ ".mount", Enabled := some true,
            Contents := some (mountUnitTemplate fs), Dropins := [], Mask := none }
        ∈ r.2.Entries := by
  obtain ⟨r, hr, h⟩ := addMountUnits_spec lib c ret hpaths
  obtain ⟨before, hb, hinv⟩ := loop_spec lib (c.Storage.Filesystems.take i) ret
    (flaggedHavePaths_take _ i hpaths)
  have hil : i < c.Storage.Filesystems.length := (List.getElem?_eq_some_iff.mp hi).1
  have hq : appendsUnit lib ret.Systemd.Units fs = true := by
    rw [appendsUnit_iff]
    refine ⟨hw, p, hp, ?_⟩
    rw [(unitMap_facts _).2.1]
    intro hmem
    obtain ⟨u, hu, hn⟩ := List.mem_map.mp hmem
    exact hname u hu hn
  have hlen := appended_length hinv
  rw [List.take_take, List.length_take, Nat.min_eq_left (Nat.le_of_lt hil),
    Nat.min_self] at hlen
  obtain ⟨h1, h2⟩ := h.common i fs _ hil hi hq (mountUnitFromFS_some lib fs p hp)
  rw [hlen] at h1 h2
  exact ⟨r, before, hr, hb, hinv.len, h1, h2⟩

theorem addMountUnits_appends_generated_unit_sample :
    (flaggedHavePaths (configOf [fsPlain, fsVar]).Storage.Filesystems ∧
      (configOf [fsPlain, fsVar]).Storage.Filesystems[1]? = some fsVar ∧
      fsVar.WithMountUnit = some true ∧ fsVar.Path = some "/var" ∧
      ∀ u ∈ (retOf []).Systemd.Units, u.Name ≠ goLib.UnitNamePathEscape "/var" ++ ".mount") ∧
    ∃ r before, addMountUnits goLib (configOf [fsPlain, fsVar]) (retOf []) = some r ∧
      addMountUnitsLoop goLib (unitMap (retOf []).Systemd.Units) 0
        ((configOf [fsPlain, fsVar]).Storage.Filesystems.take 1)
        (retOf []) (NewTranslationSet "yaml" "json") = some before ∧
      (retOf []).Systemd.Units.length ≤ before.1.Systemd.Units.length ∧
      r.1.Systemd.Units[before.1.Systemd.Units.length]? =
        some { Name := goLib.UnitNamePathEscape "/var" ++ ".mount", Enabled := some true,
               Contents := some (mountUnitTemplate fsVar), Dropins := [], Mask := none } ∧
      Entry.commonSource (flagPath 1) (unitPath before.1.Systemd.Units.length)
          { Name := goLib.UnitNamePathEscape "/var" ++ ".mount", Enabled := some true,
            Contents := some (mountUnitTemplate fsVar), Dropins := [], Mask := none }
        ∈ r.2.Entries :=
  ⟨⟨by unfold flaggedHavePaths; decide, rfl, rfl, rfl, by decide⟩,
    addMountUnits_appends_generated_unit goLib (configOf [fsPlain, fsVar]) (retOf []) 1
      fsVar "/var" (by unfold flaggedHavePaths; decide) rfl rfl rfl (by decide)⟩

/-- C3, as it fails: the unit names of the destination are pairwise distinct, the
flagged filesystem at index 1 has the name of the unit `var.mount` at index 0, and
the contents and the enable flag of that unit are absent before the call; the call
fills them, but from the unit generated for filesystem 0, not from the one
generated for filesystem 1, and it records no translation from filesystem 1, for
contents or for enabled. -/
theorem addMountUnits_later_same_name_not_recorded :
    ((retOf [bareVarUnit]).Systemd.Units.map (fun u => u.Name)).Nodup ∧
    (configOf [fsVar, fsVarAgain]).Storage.Filesystems[1]? = some fsVarAgain ∧
    fsVarAgain.WithMountUnit = some true ∧
    (mountUnitFromFS goLib fsVarAgain).map (fun u => u.Name) = some bareVarUnit.Name ∧
    (retOf [bareVarUnit]).Systemd.Units[0]? = some bareVarUnit ∧
    bareVarUnit.Contents = none ∧ bareVarUnit.Enabled = none ∧
    (addMountUnits goLib (configOf [fsVar, fsVarAgain]) (retOf [bareVarUnit])).map
        (fun r =>
          (r.1.Systemd.Units.map (fun u => u.Contents),
            decide (Entry.translation (flagPath 1) (unitFieldPath 0 "contents")
              ∈ r.2.Entries),
            decide (Entry.translation (flagPath 1) (unitFieldPath 0 "enabled")
              ∈ r.2.Entries),
            r.2.Entries.map (fun e => e.From))) =
      some ([some (mountUnitTemplate fsVar)], false, false, [flagPath 0, flagPath 0]) ∧
    (mountUnitFromFS goLib fsVarAgain).map (fun u => u.Contents)
      ≠ some (some (mountUnitTemplate fsVar)) := by
  refine ⟨by decide, rfl, rfl, by decide, rfl, rfl, rfl, by decide, by decide⟩

/-- When the unit names of the destination are pairwise distinct and the flagged
filesystem at index `i` has the name of the unit at index `j`, that unit, as it is
when the loop reaches filesystem `i` (`ub`, in the state `before`, after the first
`i` filesystems), gets the generated contents exactly when its contents are absent
and `Enabled = true` exactly when its enable flag is absent, and keeps a value that
is present; the translation from yaml `storage.filesystems.i.with_mount_unit` to
json `systemd.units.j.contents` (or `.enabled`) is in the set returned exactly when
that field was filled. When no flagged filesystem at a lower index has the same unit
name, `ub` is the unit as it was before the call. -/
theorem fills_fields_when_reached {I P S : Type} (lib : Lib) (c : Config)
    (ret : types.Config I P S) (i j : Nat) (fs : Filesystem) (p : String)
    (u : types.Unit)
    (hpaths : flaggedHavePaths c.Storage.Filesystems)
    (hnd : (ret.Systemd.Units.map (fun u => u.Name)).Nodup)
    (hi : c.Storage.Filesystems[i]? = some fs) (hw : fs.WithMountUnit = some true)
    (hp : fs.Path = some p) (hu : ret.Systemd.Units[j]? = some u)
    (hname : u.Name = lib.UnitNamePathEscape p ++ ".mount") :
    ∃ r before ub u1, addMountUnits lib c ret = some r ∧
      addMountUnitsLoop lib (unitMap ret.Systemd.Units) 0 (c.Storage.Filesystems.take i)
        ret (NewTranslationSet "yaml" "json") = some before ∧
      before.1.Systemd.Units[j]? = some ub ∧ r.1.Systemd.Units[j]? = some u1 ∧
      u1.Contents =
        (if ub.Contents = none then some (mountUnitTemplate fs) else ub.Contents) ∧
      u1.Enabled = (if ub.Enabled = none then some true else ub.Enabled) ∧
      (Entry.translation (flagPath i) (unitFieldPath j "contents") ∈ r.2.Entries
        ↔ ub.Contents = none) ∧
      (Entry.translation (flagPath i) (unitFieldPath j "enabled") ∈ r.2.Entries
        ↔ ub.Enabled = none) ∧
      ((∀ t fs1 p1, t < i → c.Storage.Filesystems[t]? = some fs1 →
          fs1.WithMountUnit = some true → fs1.Path = some p1 →
          lib.UnitNamePathEscape p1 ++ ".mount" ≠ lib.UnitNamePathEscape p ++ ".mount") →
        ub = u) := by
  obtain ⟨r, hr, h⟩ := addMountUnits_spec lib c ret hpaths
  obtain ⟨before, hb, hinv⟩ := loop_spec lib (c.Storage.Filesystems.take i) ret
    (flaggedHavePaths_take _ i hpaths)
  have hil : i < c.Storage.Filesystems.length := (List.getElem?_eq_some_iff.mp hi).1
  have hjn : j < ret.Systemd.Units.length := (List.getElem?_eq_some_iff.mp hu).1
  have hj : unitMap ret.Systemd.Units (unitName lib p) = some j := by
    have := (unitMap_facts ret.Systemd.Units).2.2 hnd j u hu
    rw [hname] at this
    exact this
  obtain ⟨ub, hub, _⟩ := hinv.frame j u hu
  obtain ⟨u1, hu1, hc, he, hmc, hme⟩ := h.every i fs p j before ub hil hi hw hp hj hb hub
  refine ⟨r, before, ub, u1, hr, hb, hub, hu1, hc, he, hmc, hme, ?_⟩
  intro hfirst
  have hun := hinv.untouched j hjn (by
    intro t fs1 p1 ht h1 h2 h3 hmap
    rw [List.length_take] at ht
    have hti : t < i := Nat.lt_of_lt_of_le ht (Nat.min_le_left _ _)
    rw [List.getElem?_take_of_lt hti] at h1
    obtain ⟨_, u2, hu2, hn2⟩ := (unitMap_facts ret.Systemd.Units).1 _ _ hmap
    rw [hu] at hu2
    rw [← Option.some.inj hu2, hname] at hn2
    exact hfirst t fs1 p1 hti h1 h2 h3 hn2.symm)
  rw [hub, hu] at hun
  exact Option.some.inj hun

/-- C3, amended: when the unit names of the destination are pairwise distinct, the
flagged filesystem at index `i` has the name of the unit at index `j`, and no flagged
filesystem at a lower index has that unit name, the call gives the unit the
generated contents exactly when its contents were absent before the call and
`Enabled = true` exactly when its enable flag was absent before the call, keeps a
value that was present, and records the translation from yaml
`storage.filesystems.i.with_mount_unit` to json `systemd.units.j.contents` (or
`.enabled`) exactly when that field was absent before the call. -/
theorem addMountUnits_fills_unset_fields {I P S : Type} (lib : Lib) (c : Config)
    (ret : types.Config I P S) (i j : Nat) (fs : Filesystem) (p : String)
    (u : types.Unit)
    (hpaths : flaggedHavePaths c.Storage.Filesystems)
    (hnd : (ret.Systemd.Units.map (fun u => u.Name)).Nodup)
    (hi : c.Storage.Filesystems[i]? = some fs) (hw : fs.WithMountUnit = some true)
    (hp : fs.Path = some p) (hu : ret.Systemd.Units[j]? = some u)
    (hname : u.Name = lib.UnitNamePathEscape p ++ ".mount")
    (hfirst : ∀ t fs1 p1, t < i → c.Storage.Filesystems[t]? = some fs1 →
      fs1.WithMountUnit = some true → fs1.Path = some p1 →
      lib.UnitNamePathEscape p1 ++ ".mount" ≠ lib.UnitNamePathEscape p ++ ".mount") :
    ∃ r u1, addMountUnits lib c ret = some r ∧ r.1.Systemd.Units[j]? = some u1 ∧
      u1.Contents = (if u.Contents = none then some (mountUnitTemplate fs) else u.Contents) ∧
      u1.Enabled = (if u.Enabled = none then some true else u.Enabled) ∧
      (Entry.translation (flagPath i) (unitFieldPath j "contents") ∈ r.2.Entries
        ↔ u.Contents = none) ∧
      (Entry.translation (flagPath i) (unitFieldPath j "enabled") ∈ r.2.Entries
        ↔ u.Enabled = none) := by
  obtain ⟨r, before, ub, u1, hr, _, _, hu1, hc, he, hmc, hme, hsame⟩ :=
    fills_fields_when_reached lib c ret i j fs p u hpaths hnd hi hw hp hu hname
  have hub : ub = u := hsame hfirst
  subst hub
  exact ⟨r, u1, hr, hu1, hc, he, hmc, hme⟩

theorem addMountUnits_fills_unset_fields_sample :
    (flaggedHavePaths (configOf [fsPlain, fsVar]).Storage.Filesystems ∧
      ((retOf [userVarUnit]).Systemd.Units.map (fun u => u.Name)).Nodup ∧
      (configOf [fsPlain, fsVar]).Storage.Filesystems[1]? = some fsVar ∧
      fsVar.WithMountUnit = some true ∧ fsVar.Path = some "/var" ∧
      (retOf [userVarUnit]).Systemd.Units[0]? = some userVarUnit ∧
      userVarUnit.Name = goLib.UnitNamePathEscape "/var" ++ ".mount" ∧
      ∀ t fs1 p1, t < 1 → (configOf [fsPlain, fsVar]).Storage.Filesystems[t]? = some fs1 →
        fs1.WithMountUnit = some true → fs1.Path = some p1 →
        goLib.UnitNamePathEscape p1 ++ ".mount" ≠ goLib.UnitNamePathEscape "/var" ++ ".mount") ∧
    ∃ r u1, addMountUnits goLib (configOf [fsPlain, fsVar]) (retOf [userVarUnit]) = some r ∧
      r.1.Systemd.Units[0]? = some u1 ∧
      u1.Contents = some "[Mount]\nWhat=/dev/sdz" ∧
      u1.Enabled = some true ∧
      Entry.translation (flagPath 1) (unitFieldPath 0 "contents") ∉ r.2.Entries ∧
      Entry.translation (flagPath 1) (unitFieldPath 0 "enabled") ∈ r.2.Entries := by
  have hfirst : ∀ t fs1 p1, t < 1 →
      (configOf [fsPlain, fsVar]).Storage.Filesystems[t]? = some fs1 →
      fs1.WithMountUnit = some true → fs1.Path = some p1 →
      goLib.UnitNamePathEscape p1 ++ ".mount" ≠
        goLib.UnitNamePathEscape "/var" ++ ".mount" := by
    intro t fs1 p1 ht h1 h2 h3
    have ht0 : t = 0 := by omega
    subst ht0
    have e1 : fsPlain = fs1 := by simpa [configOf] using h1
    subst e1
    simp [fsPlain] at h2
  refine ⟨⟨by unfold flaggedHavePaths; decide, by decide, rfl, rfl, rfl, rfl, by decide,
    hfirst⟩, ?_⟩
  obtain ⟨r, u1, hr, hu1, hc, he, hmc, hme⟩ :=
    addMountUnits_fills_unset_fields goLib (configOf [fsPlain, fsVar]) (retOf [userVarUnit])
      1 0 fsVar "/var" userVarUnit (by unfold flaggedHavePaths; decide) (by decide) rfl rfl
      rfl rfl (by decide) hfirst
  refine ⟨r, u1, hr, hu1, ?_, ?_, ?_, ?_⟩
  · simpa [userVarUnit] using hc
  · simpa [userVarUnit] using he
  · rw [hmc]; simp [userVarUnit]
  · rw [hme]; simp [userVarUnit]

/-- C8, as it fails: the destination has no unit, so its unit names are pairwise
distinct, and the two flagged filesystems are both mounted on `/var`; both
generated units are appended and the unit list has the name `var.mount` twice. -/
theorem addMountUnits_same_path_twice :
    ((retOf []).Systemd.Units.map (fun u => u.Name)).Nodup ∧
    (addMountUnits goLib (configOf [fsVar, fsVarAgain]) (retOf [])).map
        (fun r => r.1.Systemd.Units.map (fun u => u.Name)) =
      some ["var.mount", "var.mount"] ∧
    ¬ (["var.mount", "var.mount"] : List String).Nodup := by
  refine ⟨by decide, by decide, by decide⟩

theorem generated_names (lib : Lib) (l : List Filesystem) (us : List types.Unit)
    (h : us.map some = l.map (mountUnitFromFS lib)) :
    us.map (fun u => u.Name) = l.filterMap (fun fs => fs.Path.map (unitName lib)) := by
  induction l generalizing us with
  | nil =>
    have : us = [] := by simpa using h
    simp [this]
  | cons fs rest ih =>
    cases us with
    | nil => simp at h
    | cons u us1 =>
      simp only [List.map_cons, List.cons.injEq] at h
      obtain ⟨h1, h2⟩ := h
      cases hp : fs.Path with
      | none => simp [mountUnitFromFS, hp] at h1
      | some p =>
        rw [mountUnitFromFS_some lib fs p hp] at h1
        have hu : u.Name = unitName lib p := by rw [Option.some.inj h1]
        simp [hp, hu, ih us1 h2]

theorem names_after {I P S : Type} {lib : Lib} {fss : List Filesystem}
    {ret0 ret : types.Config I P S} {ts : TranslationSet}
    (h : MountInv lib fss ret0 fss.length ret ts) :
    ret.Systemd.Units.map (fun u => u.Name) =
      ret0.Systemd.Units.map (fun u => u.Name) ++
        appendedNames lib ret0.Systemd.Units fss := by
  have h1 : (ret.Systemd.Units.take ret0.Systemd.Units.length).map (fun u => u.Name) =
      ret0.Systemd.Units.map (fun u => u.Name) := by
    apply List.ext_getElem?
    intro j
    simp only [List.getElem?_map, List.getElem?_take]
    by_cases hj : j < ret0.Systemd.Units.length
    · simp only [hj, if_true]
      obtain ⟨u1, hu1, hk⟩ := h.frame j _ (List.getElem?_eq_getElem hj)
      rw [hu1, List.getElem?_eq_getElem hj]
      simp [hk.1]
    · simp only [hj, if_false]
      rw [List.getElem?_eq_none (Nat.le_of_not_lt hj)]
  have h2 : (ret.Systemd.Units.drop ret0.Systemd.Units.length).map (fun u => u.Name) =
      appendedNames lib ret0.Systemd.Units fss := by
    apply generated_names
    simpa using h.appended
  rw [← List.take_append_drop ret0.Systemd.Units.length ret.Systemd.Units, List.map_append,
    h1, h2]

theorem appendedNames_not_original (lib : Lib) (units : List types.Unit)
    (fss : List Filesystem) :
    ∀ x ∈ appendedNames lib units fss, x ∉ units.map (fun u => u.Name) := by
  intro x hx
  simp only [appendedNames, List.mem_filterMap, List.mem_filter] at hx
  obtain ⟨fs, ⟨_, hq⟩, hname⟩ := hx
  obtain ⟨_, p, hp, hnone⟩ := (appendsUnit_iff _ _ _).mp hq
  rw [hp] at hname
  rw [← Option.some.inj hname]
  exact ((unitMap_facts units).2.1 _).mp hnone

/-- C8, amended: when the unit names of the destination are pairwise distinct before
the call, the unit names after `addMountUnits` are the original names followed by
the unit names of the flagged filesystems whose unit name is not an original name;
no appended unit has the name of an original unit, and the names are pairwise
distinct when those flagged filesystems have pairwise distinct unit names. -/
theorem addMountUnits_names_distinct {I P S : Type} (lib : Lib) (c : Config)
    (ret : types.Config I P S) (hpaths : flaggedHavePaths c.Storage.Filesystems)
    (hnd : (ret.Systemd.Units.map (fun u => u.Name)).Nodup)
    (hdist : (appendedNames lib ret.Systemd.Units c.Storage.Filesystems).Nodup) :
    ∃ r, addMountUnits lib c ret = some r ∧
      r.1.Systemd.Units.map (fun u => u.Name) =
        ret.Systemd.Units.map (fun u => u.Name) ++
          appendedNames lib ret.Systemd.Units c.Storage.Filesystems ∧
      (∀ x ∈ appendedNames lib ret.Systemd.Units c.Storage.Filesystems,
        x ∉ ret.Systemd.Units.map (fun u => u.Name)) ∧
      (r.1.Systemd.Units.map (fun u => u.Name)).Nodup := by
  obtain ⟨r, hr, h⟩ := addMountUnits_spec lib c ret hpaths
  have hnames := names_after h
  have hnot := appendedNames_not_original lib ret.Systemd.Units c.Storage.Filesystems
  refine ⟨r, hr, hnames, hnot, ?_⟩
  rw [hnames, List.nodup_append]
  exact ⟨hnd, hdist, fun x hx1 hx2 => hnot x hx2 hx1⟩

theorem addMountUnits_names_distinct_sample :
    (flaggedHavePaths (configOf [fsVar, fsPlain, fsSrv]).Storage.Filesystems ∧
      ((retOf [fooService]).Systemd.Units.map (fun u => u.Name)).Nodup ∧
      (appendedNames goLib (retOf [fooService]).Systemd.Units
        (configOf [fsVar, fsPlain, fsSrv]).Storage.Filesystems).Nodup) ∧
    ∃ r, addMountUnits goLib (configOf [fsVar, fsPlain, fsSrv]) (retOf [fooService])
        = some r ∧
      r.1.Systemd.Units.map (fun u => u.Name) = ["foo.service", "var.mount", "srv.mount"] ∧
      (r.1.Systemd.Units.map (fun u => u.Name)).Nodup := by
  refine ⟨⟨by unfold flaggedHavePaths; decide, by decide, by decide⟩, ?_⟩
  obtain ⟨r, hr, hnames, _, hnd⟩ :=
    addMountUnits_names_distinct goLib (configOf [fsVar, fsPlain, fsSrv])
      (retOf [fooService]) (by unfold flaggedHavePaths; decide) (by decide) (by decide)
  refine ⟨r, hr, ?_, hnd⟩
  rw [hnames]
  decide

end v0_2_exp
